import Mathlib

/-!
A shallow embedding of the xsd2proto conversion core (the `converter`
package: `converter.go` and `type_mapper` file) and of the XSD / Protobuf
data model (`model` package), together with theorems about the conversion.

Modelling conventions:
* Go strings are modelled as Lean `String`, with the byte-level operations
  of the source expressed over `String.data` (`List Char`).  All inputs of
  interest are ASCII, where Go's byte-wise `strings.ToUpper` / `ToLower`
  coincide with the per-character ASCII maps used here.
* Go maps used as sets (`map[string]bool`) are modelled as `List String`
  with membership; a `map[K]V` is modelled as an association list where an
  update conses a pair in front (so `List.lookup` sees the newest binding,
  matching Go's overwrite semantics).
* Go's unbounded `for` loops searching for a fresh name are modelled with
  explicit fuel; the fuel supplied by the callers is shown sufficient by a
  pigeonhole argument, so the fallback branch is unreachable.
* Functions returning `(T, error)` in Go are modelled as
  `Except String T`.
-/

/-- ASCII upper-case map, agreeing with Go's `strings.ToUpper` on ASCII. -/
def asciiUpperChar (c : Char) : Char :=
  if 'a' ≤ c ∧ c ≤ 'z' then Char.ofNat (c.toNat - 32) else c

/-- ASCII lower-case map, agreeing with Go's `strings.ToLower` on ASCII. -/
def asciiLowerChar (c : Char) : Char :=
  if 'A' ≤ c ∧ c ≤ 'Z' then Char.ofNat (c.toNat + 32) else c

/-- `strings.ToUpper` (ASCII fragment). -/
def strUpper (s : String) : String := String.mk (s.data.map asciiUpperChar)

/-- `strings.ToLower` (ASCII fragment). -/
def strLower (s : String) : String := String.mk (s.data.map asciiLowerChar)

/-- The test `r >= 'A' && r <= 'Z'` used throughout the Go source. -/
def isUpperAZ (c : Char) : Bool := 'A' ≤ c && c ≤ 'Z'

/-- Little-endian decimal digits with explicit fuel (fuel `n` suffices for
input `n`); mirrors the value printed by Go's `fmt.Sprintf("%d", n)`. -/
def digitsFuel : Nat → Nat → List Nat
  | 0, _ => []
  | fuel + 1, n => if n = 0 then [] else n % 10 :: digitsFuel fuel (n / 10)

/-- Recombination of little-endian decimal digits, inverse of `digitsFuel`. -/
def fromDigits : List Nat → Nat
  | [] => 0
  | d :: ds => d + 10 * fromDigits ds

/-- A single decimal digit as a character. -/
def digChar (d : Nat) : Char :=
  match d with
  | 0 => '0' | 1 => '1' | 2 => '2' | 3 => '3' | 4 => '4'
  | 5 => '5' | 6 => '6' | 7 => '7' | 8 => '8' | 9 => '9'
  | _ => '*'

/-- Inverse of `digChar` on decimal digits. -/
def charDig (c : Char) : Nat :=
  match c with
  | '0' => 0 | '1' => 1 | '2' => 2 | '3' => 3 | '4' => 4
  | '5' => 5 | '6' => 6 | '7' => 7 | '8' => 8 | '9' => 9
  | _ => 10

/-- Decimal representation of a natural number, as produced by Go's
`fmt.Sprintf("%s%d", ..)` for the numeric part. -/
def natRepr (n : Nat) : String :=
  if n = 0 then "0" else String.mk (((digitsFuel n n).map digChar).reverse)

theorem fromDigits_digitsFuel : ∀ fuel n, n ≤ fuel → fromDigits (digitsFuel fuel n) = n := by
  intro fuel
  induction fuel with
  | zero => intro n h; interval_cases n; rfl
  | succ f ih =>
    intro n h
    by_cases hn : n = 0
    · subst hn; simp [digitsFuel, fromDigits]
    · have hdiv : n / 10 ≤ f := by
        have h1 : n / 10 < n := Nat.div_lt_self (Nat.pos_of_ne_zero hn) (by omega)
        omega
      simp only [digitsFuel, if_neg hn, fromDigits, ih (n / 10) hdiv]
      omega

theorem digitsFuel_lt_ten : ∀ fuel n d, d ∈ digitsFuel fuel n → d < 10 := by
  intro fuel
  induction fuel with
  | zero => intro n d h; simp [digitsFuel] at h
  | succ f ih =>
    intro n d h
    by_cases hn : n = 0
    · subst hn; simp [digitsFuel] at h
    · simp only [digitsFuel, if_neg hn, List.mem_cons] at h
      rcases h with h | h
      · subst h; exact Nat.mod_lt _ (by omega)
      · exact ih _ _ h

theorem charDig_digChar : ∀ d, d < 10 → charDig (digChar d) = d := by decide

theorem map_digChar_inj : ∀ {l₁ l₂ : List Nat}, (∀ d ∈ l₁, d < 10) → (∀ d ∈ l₂, d < 10) →
    l₁.map digChar = l₂.map digChar → l₁ = l₂ := by
  intro l₁
  induction l₁ with
  | nil => intro l₂ _ _ h; cases l₂ <;> simp_all
  | cons a t ih =>
    intro l₂ h₁ h₂ h
    cases l₂ with
    | nil => simp at h
    | cons b t₂ =>
      simp only [List.map_cons, List.cons.injEq] at h
      have ha : a < 10 := h₁ a (by simp)
      have hb : b < 10 := h₂ b (by simp)
      have hab : a = b := by
        have := congrArg charDig h.1
        rwa [charDig_digChar a ha, charDig_digChar b hb] at this
      have ht : t = t₂ := ih (fun d hd => h₁ d (by simp [hd])) (fun d hd => h₂ d (by simp [hd])) h.2
      rw [hab, ht]

theorem natRepr_inj : Function.Injective natRepr := by
  intro a b h
  unfold natRepr at h
  by_cases ha : a = 0 <;> by_cases hb : b = 0
  · omega
  · exfalso
    rw [if_pos ha, if_neg hb] at h
    have hdata : ('0' : Char) :: [] = (((digitsFuel b b).map digChar).reverse) := congrArg String.data h
    have : (digitsFuel b b).map digChar = ['0'] := by
      have := congrArg List.reverse hdata
      simpa using this.symm
    have hb' : digitsFuel b b = [0] := by
      have h0 : ∀ d ∈ digitsFuel b b, d < 10 := fun d hd => digitsFuel_lt_ten _ _ _ hd
      have h1 : ∀ d ∈ [(0 : Nat)], d < 10 := by decide
      exact map_digChar_inj h0 h1 (by simpa using this)
    have := fromDigits_digitsFuel b b (Nat.le_refl b)
    rw [hb'] at this
    simp [fromDigits] at this
    omega
  · exfalso
    rw [if_neg ha, if_pos hb] at h
    have hdata : (((digitsFuel a a).map digChar).reverse) = ('0' : Char) :: [] := congrArg String.data h
    have : (digitsFuel a a).map digChar = ['0'] := by
      have := congrArg List.reverse hdata
      simpa using this
    have ha' : digitsFuel a a = [0] := by
      have h0 : ∀ d ∈ digitsFuel a a, d < 10 := fun d hd => digitsFuel_lt_ten _ _ _ hd
      have h1 : ∀ d ∈ [(0 : Nat)], d < 10 := by decide
      exact map_digChar_inj h0 h1 (by simpa using this)
    have := fromDigits_digitsFuel a a (Nat.le_refl a)
    rw [ha'] at this
    simp [fromDigits] at this
    omega
  · rw [if_neg ha, if_neg hb] at h
    have hdata : (((digitsFuel a a).map digChar).reverse) = (((digitsFuel b b).map digChar).reverse) :=
      congrArg String.data h
    have := congrArg List.reverse hdata
    simp only [List.reverse_reverse] at this
    have hd : digitsFuel a a = digitsFuel b b :=
      map_digChar_inj (fun d hd => digitsFuel_lt_ten _ _ _ hd)
        (fun d hd => digitsFuel_lt_ten _ _ _ hd) this
    have h1 := fromDigits_digitsFuel a a (Nat.le_refl a)
    have h2 := fromDigits_digitsFuel b b (Nat.le_refl b)
    rw [hd] at h1
    omega

/-- `strings.HasPrefix`. -/
def hasPrefixStr (s pre : String) : Bool := pre.data.isPrefixOf s.data

/-- `strings.TrimPrefix`. -/
def trimPrefixStr (s pre : String) : String :=
  if hasPrefixStr s pre then String.mk (s.data.drop pre.data.length) else s

/-- `strings.Split` on a one-character separator (keeps empty parts; the
result is always non-empty). -/
def splitCharList (sep : Char) : List Char → List (List Char)
  | [] => [[]]
  | c :: rest =>
    if c = sep then [] :: splitCharList sep rest
    else
      match splitCharList sep rest with
      | [] => [[c]]
      | h :: t => (c :: h) :: t

/-- `strings.Split(s, sep)` for a one-character separator. -/
def splitCharStr (sep : Char) (s : String) : List String :=
  (splitCharList sep s.data).map String.mk

/-- `strings.Join(parts, ".")`. -/
def joinDot (parts : List String) : String :=
  String.mk (List.intercalate ['.'] (parts.map String.data))

/-- `strings.ReplaceAll` for one-character patterns. -/
def replaceChar (s : String) (old new : Char) : String :=
  String.mk (s.data.map (fun c => if c = old then new else c))

/-- `strings.FieldsFunc` with the separator predicate `r == '_' || r == '-'
|| r == '.'` used by the case converters (splits and drops empty parts). -/
def splitSeps : List Char → List Char → List (List Char)
  | [], cur => if cur.isEmpty then [] else [cur.reverse]
  | c :: rest, cur =>
    if c = '_' ∨ c = '-' ∨ c = '.' then
      if cur.isEmpty then splitSeps rest [] else cur.reverse :: splitSeps rest []
    else splitSeps rest (c :: cur)

/-- `splitCamelCase` (shared verbatim by `Converter` and `TypeMapper` in the
source): splits a token before every ASCII upper-case letter that is not the
first character.  The accumulator holds the current part reversed; the Go
loop's `i > 0 && current.Len() > 0` test is equivalent to the accumulator
being non-empty, since the first character never flushes and a flush
immediately writes the new character. -/
def splitCamelCaseAux : List Char → List Char → List (List Char)
  | [], cur => if cur.isEmpty then [] else [cur.reverse]
  | c :: rest, cur =>
    if isUpperAZ c ∧ ¬ cur.isEmpty then
      cur.reverse :: splitCamelCaseAux rest [c]
    else splitCamelCaseAux rest (c :: cur)

/-- `splitCamelCase` on a whole string. -/
def splitCamelCase (l : List Char) : List (List Char) := splitCamelCaseAux l []

/-- Capitalize-first-lowercase-rest, the per-part step of `toPascalCase`. -/
def capitalizePart : List Char → List Char
  | [] => []
  | c :: rest => asciiUpperChar c :: rest.map asciiLowerChar

/-- `toPascalCase` (shared verbatim by `Converter` and `TypeMapper`). -/
def toPascalCase (s : String) : String :=
  let parts := splitSeps s.data []
  let finalParts := parts.flatMap splitCamelCase
  String.mk (finalParts.flatMap capitalizePart)

/-- The per-part step of `toCamelCase`: the first part is fully lowercased,
later parts are capitalized. -/
def camelPart (isFirst : Bool) (part : List Char) : List Char :=
  match part with
  | [] => []
  | c :: rest =>
    if isFirst then asciiLowerChar c :: rest.map asciiLowerChar
    else asciiUpperChar c :: rest.map asciiLowerChar

/-- Joins camel-case parts: index 0 lowercased, the rest capitalized. -/
def camelJoin : Bool → List (List Char) → List Char
  | _, [] => []
  | isFirst, p :: ps => camelPart isFirst p ++ camelJoin false ps

/-- `Converter.toCamelCase`. -/
def toCamelCase (s : String) : String :=
  let parts := splitSeps s.data []
  let finalParts := parts.flatMap splitCamelCase
  String.mk (camelJoin true finalParts)

/-- One pass of `Converter.toSnakeCase`'s loop body (before the final
`strings.ToLower`); the `Bool` records whether we are at index 0. -/
def snakeAux : Bool → List Char → List Char
  | _, [] => []
  | first, c :: rest =>
    (if ¬ first ∧ isUpperAZ c = true then ['_'] else []) ++
      (if c = '-' ∨ c = '.' then ['_'] else [c]) ++ snakeAux false rest

/-- `Converter.toSnakeCase`. -/
def toSnakeCase (s : String) : String :=
  String.mk ((snakeAux true s.data).map asciiLowerChar)

/-- `model.Enumeration`. -/
structure Enumeration where
  value : String
deriving DecidableEq

/-- `model.Length`. -/
structure XLength where
  value : Int
deriving DecidableEq

/-- `model.Pattern`. -/
structure XPattern where
  value : String
deriving DecidableEq

/-- `model.Restriction`. -/
structure Restriction where
  base : String
  enumerations : List Enumeration
  pattern : Option XPattern
  minLength : Option XLength
  maxLength : Option XLength
deriving DecidableEq

/-- `model.Union`. -/
structure XUnion where
  memberTypes : String
deriving DecidableEq

/-- `model.List`. -/
structure XList where
  itemType : String
deriving DecidableEq

/-- `model.SimpleType`. -/
structure SimpleType where
  name : String
  restriction : Option Restriction
  union : Option XUnion
  list : Option XList
deriving DecidableEq

/-- `model.Attribute`. -/
structure Attribute where
  name : String
  typeName : String
  use : String
deriving DecidableEq

/-- A `model.Element` occurring inside a `Sequence` or `Choice`.  The
converter reads only the name, declared type and occurrence bounds of such
elements; it never traverses an inline complex or simple type nested below
a sequence/choice member, so those (recursive) fields are omitted from the
embedding of child elements. -/
structure ChildElement where
  name : String
  typeName : String
  minOccurs : String
  maxOccurs : String
deriving DecidableEq

/-- `model.Sequence`. -/
structure Sequence where
  elements : List ChildElement
  minOccurs : String
  maxOccurs : String
deriving DecidableEq

/-- `model.Choice`. -/
structure Choice where
  elements : List ChildElement
  minOccurs : String
  maxOccurs : String
deriving DecidableEq

/-- `model.ComplexType`. -/
structure ComplexType where
  name : String
  sequence : Option Sequence
  choice : Option Choice
  attributes : List Attribute
deriving DecidableEq

/-- A top-level `model.Element` (the converter reads its optional inline
complex type, unlike for child elements). -/
structure Element where
  name : String
  typeName : String
  minOccurs : String
  maxOccurs : String
  complexType : Option ComplexType
  simpleType : Option SimpleType
deriving DecidableEq

/-- `model.Schema`.  Import/include references and the resolved
`ImportedSchemas` tree are never read by the conversion core, so they are
omitted from the embedding. -/
structure Schema where
  targetNamespace : String
  elements : List Element
  complexTypes : List ComplexType
  simpleTypes : List SimpleType
deriving DecidableEq

/-- `model.FieldLabel` (an `int` enumeration in the source). -/
inductive FieldLabel where
  | optional
  | required
  | repeated
deriving DecidableEq

/-- `model.ProtoField`.  The `Options` map is never populated by the core. -/
structure ProtoField where
  name : String
  typeName : String
  number : Nat
  label : FieldLabel
deriving DecidableEq

/-- `model.ProtoEnumValue`. -/
structure ProtoEnumValue where
  name : String
  number : Nat
deriving DecidableEq

/-- `model.ProtoEnum`. -/
structure ProtoEnum where
  name : String
  values : List ProtoEnumValue
deriving DecidableEq

/-- `model.ProtoMessage`.  The nested `Messages`/`Enums` lists are never
populated by the core ("unused by this core" per its documentation), so
they are omitted to keep the type non-recursive. -/
structure ProtoMessage where
  name : String
  fields : List ProtoField
deriving DecidableEq

/-- `model.ProtoFile`.  `syn` models the `Syntax` field; the `Options` map
is created empty and never written by the core. -/
structure ProtoFile where
  syn : String
  packageName : String
  options : List (String × String)
  fileImports : List String
  messages : List ProtoMessage
  enums : List ProtoEnum
deriving DecidableEq

/-- `converter.TypeMapper`. -/
structure TypeMapper where
  customMappings : List (String × String)
deriving DecidableEq

/-- `converter.NewTypeMapper`. -/
def newTypeMapper : TypeMapper := { customMappings := [] }

/-- `TypeMapper.CleanTypeName`: removes everything up to and including the
last `:` (Go: `strings.LastIndex(typeName, ":")` and slicing). -/
def cleanTypeName (typeName : String) : String :=
  String.mk ((typeName.data.reverse.takeWhile (fun c => c ≠ ':')).reverse)

/-- The built-in XSD type names of `TypeMapper.IsBuiltInType`'s table. -/
def builtInTypeNames : List String :=
  ["string", "normalizedString", "token", "NMTOKEN",
   "Name", "NCName", "ID", "IDREF",
   "boolean",
   "int", "integer", "short", "byte", "unsignedByte",
   "long", "unsignedInt", "unsignedLong", "unsignedShort",
   "float", "double", "decimal",
   "dateTime", "date", "time", "duration",
   "anyURI", "base64Binary", "hexBinary"]

/-- `TypeMapper.IsBuiltInType`. -/
def TypeMapper.isBuiltInType (_tm : TypeMapper) (typeName : String) : Bool :=
  cleanTypeName typeName ∈ builtInTypeNames

/-- `TypeMapper.MapXSDType`.  Every branch of the Go function returns a nil
error; the `Except` result mirrors the `(string, error)` signature. -/
def TypeMapper.mapXSDType (tm : TypeMapper) (xsdType : String) : Except String String :=
  let cleanType := cleanTypeName xsdType
  match tm.customMappings.lookup cleanType with
  | some protoType => .ok protoType
  | none =>
    if cleanType = "string" ∨ cleanType = "normalizedString" ∨ cleanType = "token" ∨
        cleanType = "NMTOKEN" ∨ cleanType = "Name" ∨ cleanType = "NCName" ∨
        cleanType = "ID" ∨ cleanType = "IDREF" then .ok "string"
    else if cleanType = "boolean" then .ok "bool"
    else if cleanType = "int" ∨ cleanType = "integer" ∨ cleanType = "short" ∨
        cleanType = "byte" ∨ cleanType = "unsignedByte" then .ok "int32"
    else if cleanType = "long" ∨ cleanType = "unsignedInt" then .ok "int64"
    else if cleanType = "float" then .ok "float"
    else if cleanType = "double" ∨ cleanType = "decimal" then .ok "double"
    else if cleanType = "dateTime" ∨ cleanType = "date" ∨ cleanType = "time" then
      .ok "google.protobuf.Timestamp"
    else if cleanType = "duration" then .ok "google.protobuf.Duration"
    else if cleanType = "anyURI" then .ok "string"
    else if cleanType = "base64Binary" ∨ cleanType = "hexBinary" then .ok "bytes"
    else if cleanType = "unsignedLong" then .ok "uint64"
    else if cleanType = "unsignedShort" then .ok "uint32"
    else .ok cleanType

/-- The well-known-type import required by one resolved proto type, if any
(the `switch` body of `GetRequiredImports`). -/
def importFor (protoType : String) : Option String :=
  if protoType = "google.protobuf.Timestamp" then some "google/protobuf/timestamp.proto"
  else if protoType = "google.protobuf.Duration" then some "google/protobuf/duration.proto"
  else if protoType = "google.protobuf.Any" then some "google/protobuf/any.proto"
  else if protoType = "google.protobuf.Empty" then some "google/protobuf/empty.proto"
  else if protoType = "google.protobuf.Struct" then some "google/protobuf/struct.proto"
  else if protoType = "google.protobuf.Value" then some "google/protobuf/struct.proto"
  else if protoType = "google.protobuf.ListValue" then some "google/protobuf/struct.proto"
  else if protoType = "google.protobuf.FieldMask" then some "google/protobuf/field_mask.proto"
  else none

/-- `TypeMapper.GetRequiredImports`.  The Go function collects the needed
paths in a map and returns its keys; Go map iteration order is unspecified,
so the embedding fixes the deduplicated first-encounter order. -/
def TypeMapper.getRequiredImports (_tm : TypeMapper) (mappedTypes : List String) : List String :=
  (mappedTypes.filterMap importFor).foldl
    (fun acc imp => if imp ∈ acc then acc else acc ++ [imp]) []

/-- `converter.Converter`: the bookkeeping state of one conversion engine. -/
structure Converter where
  typeMapper : TypeMapper
  fieldCounter : Nat
  usedEnumValues : List String
  enumValueCounters : List (String × Nat)
  usedMessageNames : List String
  usedEnumNames : List String
  typeRenameMap : List (String × String)
  useCamelCase : Bool
  usePascalCase : Bool
  currentSchema : Option Schema
deriving DecidableEq

/-- `converter.New`. -/
def Converter.new : Converter :=
  { typeMapper := newTypeMapper
    fieldCounter := 1
    usedEnumValues := []
    enumValueCounters := []
    usedMessageNames := []
    usedEnumNames := []
    typeRenameMap := []
    useCamelCase := false
    usePascalCase := false
    currentSchema := none }

/-- `Converter.SetFieldNamingStyle`. -/
def Converter.setFieldNamingStyle (c : Converter) (cc pc : Bool) : Converter :=
  { c with useCamelCase := cc, usePascalCase := pc }

/-- `Converter.formatMessageName`. -/
def formatMessageName (name : String) : String := toPascalCase name

/-- `Converter.formatEnumName`. -/
def formatEnumName (name : String) : String := toPascalCase name

/-- `Converter.formatFieldName`. -/
def formatFieldName (c : Converter) (name : String) : String :=
  if c.usePascalCase then toPascalCase name
  else if c.useCamelCase then toCamelCase name
  else toSnakeCase name

/-- The unbounded suffix-search loop shared by `generateUniqueMessageName`
and `generateUniqueEnumName`: starting at `counter`, returns the first
`base ++ repr counter` contained in neither used-name list.  The loop is
modelled with fuel; the callers supply enough fuel for the fallback (which
keeps the `base ++ repr` shape) to be unreachable. -/
def findFreshName (used1 used2 : List String) (base : String) : Nat → Nat → String
  | counter, 0 => base ++ natRepr counter
  | counter, fuel + 1 =>
    let candidateName := base ++ natRepr counter
    if candidateName ∈ used1 ∨ candidateName ∈ used2 then
      findFreshName used1 used2 base (counter + 1) fuel
    else candidateName

/-- `Converter.generateUniqueMessageName`. -/
def generateUniqueMessageName (c : Converter) (originalName : String) : String × Converter :=
  let formattedName := formatMessageName originalName
  if formattedName ∉ c.usedMessageNames ∧ formattedName ∉ c.usedEnumNames then
    (formattedName,
     { c with usedMessageNames := formattedName :: c.usedMessageNames
              typeRenameMap := (originalName, formattedName) :: c.typeRenameMap })
  else
    let candidateName := findFreshName c.usedMessageNames c.usedEnumNames formattedName 2
      (c.usedMessageNames.length + c.usedEnumNames.length + 1)
    (candidateName,
     { c with usedMessageNames := candidateName :: c.usedMessageNames
              typeRenameMap := (originalName, candidateName) :: c.typeRenameMap })

/-- `Converter.generateUniqueEnumName`. -/
def generateUniqueEnumName (c : Converter) (originalName : String) : String × Converter :=
  let formattedName := formatEnumName originalName
  if formattedName ∉ c.usedEnumNames ∧ formattedName ∉ c.usedMessageNames then
    (formattedName,
     { c with usedEnumNames := formattedName :: c.usedEnumNames
              typeRenameMap := (originalName, formattedName) :: c.typeRenameMap })
  else
    let candidateName := findFreshName c.usedEnumNames c.usedMessageNames formattedName 2
      (c.usedEnumNames.length + c.usedMessageNames.length + 1)
    (candidateName,
     { c with usedEnumNames := candidateName :: c.usedEnumNames
              typeRenameMap := (originalName, candidateName) :: c.typeRenameMap })

/-- The suffix-search loop of `generateUniqueEnumValueName`: increments the
counter before forming each candidate and also returns the counter that
produced the winning candidate (stored back into `enumValueCounters`). -/
def findFreshValue (used : List String) (base : String) : Nat → Nat → String × Nat
  | counter, 0 => (base ++ natRepr (counter + 1), counter + 1)
  | counter, fuel + 1 =>
    let counterN := counter + 1
    let candidateName := base ++ natRepr counterN
    if candidateName ∈ used then findFreshValue used base counterN fuel
    else (candidateName, counterN)

/-- `Converter.generateUniqueEnumValueName`. -/
def generateUniqueEnumValueName (c : Converter) (enumName valueName : String)
    (isFirstValue : Bool) : String × Converter :=
  let enumSnakeCase := toSnakeCase enumName
  let enumPre := strUpper enumSnakeCase
  let prefixedName :=
    if isFirstValue then enumPre ++ "_UNSPECIFIED"
    else enumPre ++ "_" ++ strUpper valueName
  if prefixedName ∉ c.usedEnumValues then
    (prefixedName, { c with usedEnumValues := prefixedName :: c.usedEnumValues })
  else
    let baseKey := prefixedName
    let counter0 := (c.enumValueCounters.lookup baseKey).getD 0
    let found := findFreshValue c.usedEnumValues prefixedName counter0
      (c.usedEnumValues.length + 1)
    (found.1,
     { c with usedEnumValues := found.1 :: c.usedEnumValues
              enumValueCounters := (baseKey, found.2) :: c.enumValueCounters })

/-- `Converter.determineFieldLabel`. -/
def determineFieldLabel (minOccurs maxOccurs : String) : FieldLabel :=
  if maxOccurs = "unbounded" ∨ (maxOccurs ≠ "" ∧ maxOccurs ≠ "1") then .repeated
  else if minOccurs = "0" then .optional
  else .required

/-- `Converter.determineAttributeLabel`. -/
def determineAttributeLabel (use : String) : FieldLabel :=
  if use = "required" then .required else .optional

/-- `Converter.isArrayOfPattern`.  The only converter state it reads is the
type mapper's pure `CleanTypeName`, so it is modelled as a pure function of
the complex type. -/
def isArrayOfPattern (complexType : ComplexType) : Bool :=
  let cleanName := cleanTypeName complexType.name
  if ¬ hasPrefixStr cleanName "ArrayOf" then false
  else
    match complexType.sequence with
    | none => false
    | some sq =>
      if sq.elements.length ≠ 1 then false
      else
        match sq.elements with
        | [] => false
        | element :: _ =>
          element.maxOccurs = "unbounded" ∨ (element.maxOccurs ≠ "" ∧ element.maxOccurs ≠ "1")

/-- The scan of `currentSchema.ComplexTypes` inside `getArrayOfElementType`:
the loop keeps scanning until a complex type whose cleaned name matches and
which satisfies the `ArrayOf` pattern is found. -/
def scanArrayOf (tm : TypeMapper) (cleanType : String) : List ComplexType → String
  | [] => ""
  | ct :: rest =>
    if cleanTypeName ct.name = cleanType ∧ isArrayOfPattern ct then
      match ct.sequence with
      | none => ""
      | some sq =>
        match sq.elements with
        | [] => ""
        | element :: _ =>
          if tm.isBuiltInType element.typeName then
            match tm.mapXSDType element.typeName with
            | .ok protoType => protoType
            | .error _ => ""
          else toPascalCase (cleanTypeName element.typeName)
    else scanArrayOf tm cleanType rest

/-- `Converter.getArrayOfElementType`. -/
def getArrayOfElementType (c : Converter) (typeName : String) : String :=
  let cleanType := cleanTypeName typeName
  if ¬ hasPrefixStr cleanType "ArrayOf" then ""
  else
    match c.currentSchema with
    | none => ""
    | some schema => scanArrayOf c.typeMapper cleanType schema.complexTypes

/-- The fallback transform at the bottom of `generatePackageName` (replace
`/` and `_` by `.`, strip one leading `.`); also the target of the dead
fall-through of the `urn:` branch. -/
def replaceSlashUnderscore (targetNamespace : String) : String :=
  trimPrefixStr (replaceChar (replaceChar targetNamespace '/' '.') '_' '.') "."

/-- `Converter.generatePackageName` (reads no converter state). -/
def generatePackageName (targetNamespace : String) : String :=
  if targetNamespace = "" then "generated"
  else if hasPrefixStr targetNamespace "http://" ∨ hasPrefixStr targetNamespace "https://" then
    let path := trimPrefixStr (trimPrefixStr targetNamespace "http://") "https://"
    let parts := splitCharStr '/' path
    if parts.length = 2 then parts.getD 1 ""
    else if parts.length > 1 ∧ parts.getLastD "" ≠ "" then parts.getLastD ""
    else
      let domain := parts.getD 0 ""
      let packageParts :=
        (if domain ≠ "" then splitCharStr '.' domain else []) ++
          (if parts.length > 1 then (parts.drop 1).filter (fun part => part ≠ "") else [])
      joinDot packageParts
  else if hasPrefixStr targetNamespace "./" then
    let path := trimPrefixStr targetNamespace "./"
    let parts := splitCharStr '/' path
    joinDot (parts.filter (fun part => part ≠ ""))
  else if hasPrefixStr targetNamespace "urn:" then
    let parts := splitCharStr ':' targetNamespace
    if parts.length > 0 then parts.getLastD "" else replaceSlashUnderscore targetNamespace
  else replaceSlashUnderscore targetNamespace

/-- `Converter.convertElementToField` (for a sequence/choice member). -/
def convertElementToField (c : Converter) (element : ChildElement) :
    Except String (ProtoField × Converter) :=
  match c.typeMapper.mapXSDType element.typeName with
  | .error e => .error e
  | .ok protoType0 =>
    let arrayElementType := getArrayOfElementType c element.typeName
    if arrayElementType ≠ "" then
      .ok ({ name := formatFieldName c element.name
             typeName := arrayElementType
             number := c.fieldCounter
             label := .repeated },
           { c with fieldCounter := c.fieldCounter + 1 })
    else
      let protoType :=
        if c.typeMapper.isBuiltInType element.typeName then protoType0
        else
          let cleanType := cleanTypeName element.typeName
          match c.typeRenameMap.lookup cleanType with
          | some renamedType => renamedType
          | none =>
            match c.typeRenameMap.lookup (toPascalCase cleanType) with
            | some renamedType => renamedType
            | none => protoType0
      .ok ({ name := formatFieldName c element.name
             typeName := protoType
             number := c.fieldCounter
             label := determineFieldLabel element.minOccurs element.maxOccurs },
           { c with fieldCounter := c.fieldCounter + 1 })

/-- `Converter.convertAttributeToField`. -/
def convertAttributeToField (c : Converter) (attr : Attribute) :
    Except String (ProtoField × Converter) :=
  match c.typeMapper.mapXSDType attr.typeName with
  | .error e => .error e
  | .ok protoType0 =>
    let protoType :=
      if c.typeMapper.isBuiltInType attr.typeName then protoType0
      else
        let cleanType := cleanTypeName attr.typeName
        match c.typeRenameMap.lookup cleanType with
        | some renamedType => renamedType
        | none =>
          match c.typeRenameMap.lookup (toPascalCase cleanType) with
          | some renamedType => renamedType
          | none => protoType0
    .ok ({ name := formatFieldName c attr.name
           typeName := protoType
           number := c.fieldCounter
           label := determineAttributeLabel attr.use },
         { c with fieldCounter := c.fieldCounter + 1 })

/-- The sequence-element loop of `convertComplexType`. -/
def convertSeqFields : Converter → List ChildElement → Except String (List ProtoField × Converter)
  | c, [] => .ok ([], c)
  | c, element :: rest =>
    match convertElementToField c element with
    | .error e => .error e
    | .ok (field, c1) =>
      match convertSeqFields c1 rest with
      | .error e => .error e
      | .ok (fields, c2) => .ok (field :: fields, c2)

/-- The choice-element loop of `convertComplexType`: converts each element
to a field and then overwrites its label with `optional`. -/
def convertChoiceFields : Converter → List ChildElement → Except String (List ProtoField × Converter)
  | c, [] => .ok ([], c)
  | c, element :: rest =>
    match convertElementToField c element with
    | .error e => .error e
    | .ok (field, c1) =>
      match convertChoiceFields c1 rest with
      | .error e => .error e
      | .ok (fields, c2) => .ok ({ field with label := .optional } :: fields, c2)

/-- The attribute loop of `convertComplexType`. -/
def convertAttrFields : Converter → List Attribute → Except String (List ProtoField × Converter)
  | c, [] => .ok ([], c)
  | c, attr :: rest =>
    match convertAttributeToField c attr with
    | .error e => .error e
    | .ok (field, c1) =>
      match convertAttrFields c1 rest with
      | .error e => .error e
      | .ok (fields, c2) => .ok (field :: fields, c2)

/-- The elements iterated by `convertComplexType`'s sequence loop (the loop
body runs only when `Sequence` is non-nil). -/
def seqElements (complexType : ComplexType) : List ChildElement :=
  match complexType.sequence with
  | some sq => sq.elements
  | none => []

/-- The elements iterated by `convertComplexType`'s choice loop. -/
def choiceElements (complexType : ComplexType) : List ChildElement :=
  match complexType.choice with
  | some ch => ch.elements
  | none => []

/-- `Converter.convertComplexType`. -/
def convertComplexType (c : Converter) (complexType : ComplexType) :
    Except String (ProtoMessage × Converter) :=
  let named := generateUniqueMessageName c complexType.name
  let c1 := { named.2 with fieldCounter := 1 }
  match convertSeqFields c1 (seqElements complexType) with
  | .error e => .error e
  | .ok (seqFields, c2) =>
    match convertChoiceFields c2 (choiceElements complexType) with
    | .error e => .error e
    | .ok (choiceFields, c3) =>
      match convertAttrFields c3 complexType.attributes with
      | .error e => .error e
      | .ok (attrFields, c4) =>
        .ok ({ name := named.1, fields := seqFields ++ choiceFields ++ attrFields }, c4)

/-- `Converter.convertElementToMessage`.  The Go function assigns
`element.ComplexType.Name = messageName` through a shared pointer, mutating
the caller's schema tree; the embedding returns the updated element so that
`convert` can rebuild the post-call schema. -/
def convertElementToMessage (c : Converter) (element : Element) :
    Except String (ProtoMessage × Element × Converter) :=
  match element.complexType with
  | none => .error ("element " ++ element.name ++ " has no complex type")
  | some ct =>
    let messageName := if ct.name ≠ "" then ct.name else element.name
    let ct1 := { ct with name := messageName }
    let element1 := { element with complexType := some ct1 }
    match convertComplexType c ct1 with
    | .error e => .error e
    | .ok (message, c1) => .ok (message, element1, c1)

/-- `Converter.convertSimpleTypeToEnum`'s value loop (`for i, enumeration :=
range simpleType.Restriction.Enumerations`). -/
def convertEnumValues (uniqueEnumName : String) :
    List Enumeration → Nat → Converter → List ProtoEnumValue × Converter
  | [], _, c => ([], c)
  | enumeration :: rest, i, c =>
    let named := generateUniqueEnumValueName c uniqueEnumName enumeration.value false
    let tl := convertEnumValues uniqueEnumName rest (i + 1) named.2
    ({ name := named.1, number := i + 1 } :: tl.1, tl.2)

/-- `Converter.convertSimpleTypeToEnum`.  Callers guard on the restriction
being present with at least one enumeration; its enumeration list is read
through the guard (an absent restriction yields the empty list where Go
would dereference a nil pointer on an unguarded call). -/
def convertSimpleTypeToEnum (c : Converter) (simpleType : SimpleType) : ProtoEnum × Converter :=
  let named := generateUniqueEnumName c simpleType.name
  let unspec := generateUniqueEnumValueName named.2 named.1 "UNSPECIFIED" true
  let enumerations := match simpleType.restriction with
    | some r => r.enumerations
    | none => []
  let vals := convertEnumValues named.1 enumerations 0 unspec.2
  ({ name := named.1, values := { name := unspec.1, number := 0 } :: vals.1 }, vals.2)

/-- The first pass of `Convert` (simple types with enumerations → enums). -/
def convertSimpleTypes : Converter → List SimpleType → List ProtoEnum × Converter
  | c, [] => ([], c)
  | c, simpleType :: rest =>
    match simpleType.restriction with
    | some r =>
      if r.enumerations.length > 0 then
        let conv := convertSimpleTypeToEnum c simpleType
        let tl := convertSimpleTypes conv.2 rest
        (conv.1 :: tl.1, tl.2)
      else convertSimpleTypes c rest
    | none => convertSimpleTypes c rest

/-- The second pass of `Convert` (top-level complex types → messages,
skipping `ArrayOf`-pattern types). -/
def convertComplexTypes : Converter → List ComplexType → Except String (List ProtoMessage × Converter)
  | c, [] => .ok ([], c)
  | c, complexType :: rest =>
    if isArrayOfPattern complexType then convertComplexTypes c rest
    else
      match convertComplexType c complexType with
      | .error e => .error ("failed to convert complex type " ++ complexType.name ++ ": " ++ e)
      | .ok (message, c1) =>
        match convertComplexTypes c1 rest with
        | .error e => .error e
        | .ok (messages, c2) => .ok (message :: messages, c2)

/-- The third pass of `Convert` (top-level elements with inline complex
types → messages); also returns the elements as they stand after the pass,
reflecting the name mutation performed by `convertElementToMessage`. -/
def convertElements : Converter → List Element → Except String (List ProtoMessage × List Element × Converter)
  | c, [] => .ok ([], [], c)
  | c, element :: rest =>
    match element.complexType with
    | none =>
      match convertElements c rest with
      | .error e => .error e
      | .ok (messages, elements1, c1) => .ok (messages, element :: elements1, c1)
    | some _ =>
      match convertElementToMessage c element with
      | .error e => .error ("failed to convert element " ++ element.name ++ ": " ++ e)
      | .ok (message, element1, c1) =>
        match convertElements c1 rest with
        | .error e => .error e
        | .ok (messages, elements1, c2) => .ok (message :: messages, element1 :: elements1, c2)

/-- `Converter.Convert`.  Returns the proto file, the schema as it stands
after the call (the source mutates the input tree through shared pointers),
and the final converter state. -/
def Converter.convert (c0 : Converter) (schema : Schema) :
    Except String (ProtoFile × Schema × Converter) :=
  let c := { c0 with currentSchema := some schema }
  let pass1 := convertSimpleTypes c schema.simpleTypes
  match convertComplexTypes pass1.2 schema.complexTypes with
  | .error e => .error e
  | .ok (messages1, c2) =>
    match convertElements c2 schema.elements with
    | .error e => .error e
    | .ok (messages2, elements1, c3) =>
      let messages := messages1 ++ messages2
      let mappedTypes := messages.flatMap (fun m => m.fields.map (fun f => f.typeName))
      .ok ({ syn := "proto3"
             packageName := generatePackageName schema.targetNamespace
             options := []
             fileImports := c3.typeMapper.getRequiredImports mappedTypes
             messages := messages
             enums := pass1.1 },
           { schema with elements := elements1 }, c3)

theorem strAppend_left_cancel {s t u : String} (h : s ++ t = s ++ u) : t = u := by
  have hd : s.data ++ t.data = s.data ++ u.data := congrArg String.data h
  have := List.append_cancel_left hd
  cases t; cases u; simp_all

theorem cand_inj {base : String} {i j : Nat} (h : base ++ natRepr i = base ++ natRepr j) : i = j :=
  natRepr_inj (strAppend_left_cancel h)

/-- Pigeonhole: among `U.length + 1` successive suffixed candidates at least
one is not in `U`. -/
theorem existsFreshCand (U : List String) (base : String) (counter : Nat) :
    ∃ k, k ≤ U.length ∧ (base ++ natRepr (counter + k)) ∉ U := by
  by_contra hcon
  push_neg at hcon
  have hsub : ((List.range (U.length + 1)).map (fun k => base ++ natRepr (counter + k))) ⊆ U := by
    intro x hx
    simp only [List.mem_map, List.mem_range] at hx
    obtain ⟨k, hk, rfl⟩ := hx
    exact hcon k (Nat.lt_succ_iff.mp hk)
  have hinj : Function.Injective (fun k => base ++ natRepr (counter + k)) := by
    intro a b hab
    have := cand_inj hab
    omega
  have hnd : ((List.range (U.length + 1)).map (fun k => base ++ natRepr (counter + k))).Nodup :=
    (List.nodup_range _).map hinj
  have hle := (List.subperm_of_subset hnd hsub).length_le
  simp at hle

theorem findFreshName_succ (u1 u2 : List String) (base : String) (counter f : Nat) :
    findFreshName u1 u2 base counter (f + 1) =
      if base ++ natRepr counter ∈ u1 ∨ base ++ natRepr counter ∈ u2 then
        findFreshName u1 u2 base (counter + 1) f
      else base ++ natRepr counter := rfl

theorem findFreshName_shape (u1 u2 : List String) (base : String) :
    ∀ fuel counter, ∃ k, counter ≤ k ∧
      findFreshName u1 u2 base counter fuel = base ++ natRepr k := by
  intro fuel
  induction fuel with
  | zero => intro counter; exact ⟨counter, Nat.le_refl _, rfl⟩
  | succ f ih =>
    intro counter
    rw [findFreshName_succ]
    by_cases h : base ++ natRepr counter ∈ u1 ∨ base ++ natRepr counter ∈ u2
    · obtain ⟨k, hk, heq⟩ := ih (counter + 1)
      exact ⟨k, by omega, by rw [if_pos h]; exact heq⟩
    · exact ⟨counter, Nat.le_refl _, by rw [if_neg h]⟩

theorem findFreshName_fresh (u1 u2 : List String) (base : String) :
    ∀ fuel counter,
      (∃ k, k < fuel ∧ base ++ natRepr (counter + k) ∉ u1 ∧ base ++ natRepr (counter + k) ∉ u2) →
      findFreshName u1 u2 base counter fuel ∉ u1 ∧ findFreshName u1 u2 base counter fuel ∉ u2 := by
  intro fuel
  induction fuel with
  | zero =>
    intro counter hex
    obtain ⟨k, hk, _⟩ := hex
    omega
  | succ f ih =>
    intro counter hex
    obtain ⟨k, hk, hk1, hk2⟩ := hex
    rw [findFreshName_succ]
    by_cases h : base ++ natRepr counter ∈ u1 ∨ base ++ natRepr counter ∈ u2
    · rw [if_pos h]
      apply ih
      rcases Nat.eq_zero_or_pos k with hk0 | hk0
      · subst hk0; simp at hk1 hk2; tauto
      · refine ⟨k - 1, by omega, ?_, ?_⟩
        · have heq : counter + 1 + (k - 1) = counter + k := by omega
          rw [heq]; exact hk1
        · have heq : counter + 1 + (k - 1) = counter + k := by omega
          rw [heq]; exact hk2
    · rw [if_neg h]
      push_neg at h
      exact h

/-- With the fuel supplied by the generators, the fresh-name search returns
a name outside both used-name lists. -/
theorem findFreshName_spec (u1 u2 : List String) (base : String) (counter : Nat) :
    findFreshName u1 u2 base counter (u1.length + u2.length + 1) ∉ u1 ∧
    findFreshName u1 u2 base counter (u1.length + u2.length + 1) ∉ u2 := by
  apply findFreshName_fresh
  obtain ⟨k, hk, hnot⟩ := existsFreshCand (u1 ++ u2) base counter
  refine ⟨k, by simp at hk; omega, ?_, ?_⟩
  · intro hmem; exact hnot (List.mem_append_left _ hmem)
  · intro hmem; exact hnot (List.mem_append_right _ hmem)

theorem findFreshValue_zero (used : List String) (base : String) (counter : Nat) :
    findFreshValue used base counter 0 = (base ++ natRepr (counter + 1), counter + 1) := rfl

theorem findFreshValue_succ (used : List String) (base : String) (counter f : Nat) :
    findFreshValue used base counter (f + 1) =
      if base ++ natRepr (counter + 1) ∈ used then findFreshValue used base (counter + 1) f
      else (base ++ natRepr (counter + 1), counter + 1) := rfl

theorem findFreshValue_shape (used : List String) (base : String) :
    ∀ fuel counter,
      (findFreshValue used base counter fuel).1 = base ++ natRepr (findFreshValue used base counter fuel).2 ∧
      counter < (findFreshValue used base counter fuel).2 := by
  intro fuel
  induction fuel with
  | zero =>
    intro counter
    rw [findFreshValue_zero]
    exact ⟨rfl, Nat.lt_succ_self _⟩
  | succ f ih =>
    intro counter
    rw [findFreshValue_succ]
    by_cases h : base ++ natRepr (counter + 1) ∈ used
    · rw [if_pos h]
      obtain ⟨h1, h2⟩ := ih (counter + 1)
      exact ⟨h1, by omega⟩
    · rw [if_neg h]
      exact ⟨rfl, Nat.lt_succ_self _⟩

theorem findFreshValue_fresh (used : List String) (base : String) :
    ∀ fuel counter,
      (∃ k, k < fuel ∧ base ++ natRepr (counter + 1 + k) ∉ used) →
      (findFreshValue used base counter fuel).1 ∉ used := by
  intro fuel
  induction fuel with
  | zero =>
    intro counter hex
    obtain ⟨k, hk, _⟩ := hex
    omega
  | succ f ih =>
    intro counter hex
    obtain ⟨k, hk, hk1⟩ := hex
    rw [findFreshValue_succ]
    by_cases h : base ++ natRepr (counter + 1) ∈ used
    · rw [if_pos h]
      apply ih
      rcases Nat.eq_zero_or_pos k with hk0 | hk0
      · subst hk0; simp at hk1; exact absurd h hk1
      · refine ⟨k - 1, by omega, ?_⟩
        have heq : counter + 1 + 1 + (k - 1) = counter + 1 + k := by omega
        rw [heq]; exact hk1
    · rw [if_neg h]
      exact h

/-- With the fuel supplied by `generateUniqueEnumValueName`, the enum-value
search returns a name outside the used list. -/
theorem findFreshValue_spec (used : List String) (base : String) (counter : Nat) :
    (findFreshValue used base counter (used.length + 1)).1 ∉ used := by
  apply findFreshValue_fresh
  obtain ⟨k, hk, hnot⟩ := existsFreshCand used base (counter + 1)
  exact ⟨k, by omega, hnot⟩

theorem genMsgName_fresh (c : Converter) (originalName : String) :
    (generateUniqueMessageName c originalName).1 ∉ c.usedMessageNames ∧
    (generateUniqueMessageName c originalName).1 ∉ c.usedEnumNames := by
  simp only [generateUniqueMessageName]
  split
  · next h => exact h
  · next h => exact findFreshName_spec c.usedMessageNames c.usedEnumNames _ 2

theorem genMsgName_state (c : Converter) (originalName : String) :
    (generateUniqueMessageName c originalName).2 =
      { c with usedMessageNames := (generateUniqueMessageName c originalName).1 :: c.usedMessageNames
               typeRenameMap := (originalName, (generateUniqueMessageName c originalName).1) :: c.typeRenameMap } := by
  simp only [generateUniqueMessageName]
  split <;> rfl

theorem genMsgName_shape (c : Converter) (originalName : String) :
    (formatMessageName originalName ∉ c.usedMessageNames ∧
        formatMessageName originalName ∉ c.usedEnumNames →
      (generateUniqueMessageName c originalName).1 = formatMessageName originalName) ∧
    (¬ (formatMessageName originalName ∉ c.usedMessageNames ∧
        formatMessageName originalName ∉ c.usedEnumNames) →
      ∃ k, 2 ≤ k ∧
        (generateUniqueMessageName c originalName).1 = formatMessageName originalName ++ natRepr k) := by
  simp only [generateUniqueMessageName]
  constructor
  · intro h
    rw [if_pos h]
  · intro h
    rw [if_neg h]
    obtain ⟨k, hk, heq⟩ := findFreshName_shape c.usedMessageNames c.usedEnumNames
      (formatMessageName originalName) (c.usedMessageNames.length + c.usedEnumNames.length + 1) 2
    exact ⟨k, hk, heq⟩

theorem genEnumName_fresh (c : Converter) (originalName : String) :
    (generateUniqueEnumName c originalName).1 ∉ c.usedEnumNames ∧
    (generateUniqueEnumName c originalName).1 ∉ c.usedMessageNames := by
  simp only [generateUniqueEnumName]
  split
  · next h => exact h
  · next h => exact findFreshName_spec c.usedEnumNames c.usedMessageNames _ 2

theorem genEnumName_state (c : Converter) (originalName : String) :
    (generateUniqueEnumName c originalName).2 =
      { c with usedEnumNames := (generateUniqueEnumName c originalName).1 :: c.usedEnumNames
               typeRenameMap := (originalName, (generateUniqueEnumName c originalName).1) :: c.typeRenameMap } := by
  simp only [generateUniqueEnumName]
  split <;> rfl

theorem genEnumValue_fresh (c : Converter) (enumName valueName : String) (isFirstValue : Bool) :
    (generateUniqueEnumValueName c enumName valueName isFirstValue).1 ∉ c.usedEnumValues := by
  cases isFirstValue <;>
  · simp only [generateUniqueEnumValueName, Bool.false_eq_true, if_false, if_true]
    split
    · next h => exact h
    · next h => exact findFreshValue_spec c.usedEnumValues _ _

theorem genEnumValue_state (c : Converter) (enumName valueName : String) (isFirstValue : Bool) :
    ∃ evc, (generateUniqueEnumValueName c enumName valueName isFirstValue).2 =
      { c with usedEnumValues :=
                 (generateUniqueEnumValueName c enumName valueName isFirstValue).1 :: c.usedEnumValues
               enumValueCounters := evc } := by
  cases isFirstValue <;>
  · simp only [generateUniqueEnumValueName, Bool.false_eq_true, if_false, if_true]
    split
    · exact ⟨c.enumValueCounters, rfl⟩
    · exact ⟨_, rfl⟩

theorem genEnumValue_shape (c : Converter) (enumName valueName : String) (isFirstValue : Bool) :
    (generateUniqueEnumValueName c enumName valueName isFirstValue).1 =
        (if isFirstValue then strUpper (toSnakeCase enumName) ++ "_UNSPECIFIED"
         else strUpper (toSnakeCase enumName) ++ "_" ++ strUpper valueName) ∨
    ∃ k, 1 ≤ k ∧
      (generateUniqueEnumValueName c enumName valueName isFirstValue).1 =
        (if isFirstValue then strUpper (toSnakeCase enumName) ++ "_UNSPECIFIED"
         else strUpper (toSnakeCase enumName) ++ "_" ++ strUpper valueName) ++ natRepr k := by
  cases isFirstValue <;>
  · simp only [generateUniqueEnumValueName, Bool.false_eq_true, if_false, if_true]
    split
    · exact Or.inl rfl
    · right
      obtain ⟨h1, h2⟩ := findFreshValue_shape c.usedEnumValues _
        (c.usedEnumValues.length + 1) ((c.enumValueCounters.lookup _).getD 0)
      exact ⟨_, by omega, h1⟩

theorem range'_append_sum (s m n : Nat) :
    List.range' s m ++ List.range' (s + m) n = List.range' s (m + n) := by
  rw [Nat.add_comm m n]
  have h := List.range'_append s m n 1
  rw [Nat.one_mul] at h
  exact h

theorem ite_isOk {P : Prop} [Decidable P] {a : String} {e : Except String String}
    (h : ∃ v, e = .ok v) :
    ∃ v, (if P then (Except.ok a : Except String String) else e) = .ok v := by
  by_cases hp : P
  · exact ⟨a, by rw [if_pos hp]⟩
  · obtain ⟨v, hv⟩ := h
    exact ⟨v, by rw [if_neg hp]; exact hv⟩

/-- Every branch of `MapXSDType` returns a nil error. -/
theorem mapXSDType_isOk (tm : TypeMapper) (t : String) :
    ∃ v, tm.mapXSDType t = .ok v := by
  simp only [TypeMapper.mapXSDType]
  split
  · exact ⟨_, rfl⟩
  · repeat
      first
      | exact ⟨_, rfl⟩
      | apply ite_isOk

theorem formatFieldName_update (c : Converter) (k : Nat) (name : String) :
    formatFieldName { c with fieldCounter := k } name = formatFieldName c name := rfl

theorem convertElementToField_spec (c : Converter) (element : ChildElement) :
    ∃ f : ProtoField,
      convertElementToField c element = .ok (f, { c with fieldCounter := c.fieldCounter + 1 }) ∧
      f.number = c.fieldCounter ∧
      f.name = formatFieldName c element.name ∧
      (getArrayOfElementType c element.typeName ≠ "" →
        f.label = .repeated ∧ f.typeName = getArrayOfElementType c element.typeName) ∧
      (getArrayOfElementType c element.typeName = "" →
        f.label = determineFieldLabel element.minOccurs element.maxOccurs) := by
  obtain ⟨v, hv⟩ := mapXSDType_isOk c.typeMapper element.typeName
  simp only [convertElementToField, hv]
  by_cases ha : getArrayOfElementType c element.typeName ≠ ""
  · rw [if_pos ha]
    exact ⟨_, rfl, rfl, rfl, fun _ => ⟨rfl, rfl⟩, fun h => absurd h ha⟩
  · rw [if_neg ha]
    exact ⟨_, rfl, rfl, rfl, fun h => absurd h ha, fun _ => rfl⟩

/-- Resolution of a custom (non-built-in) element type through the rename
map: the newest entry for the cleaned declared type wins. -/
theorem convertElementToField_renamed (c : Converter) (element : ChildElement) (nm : String)
    (harr : getArrayOfElementType c element.typeName = "")
    (hb : c.typeMapper.isBuiltInType element.typeName = false)
    (hlk : c.typeRenameMap.lookup (cleanTypeName element.typeName) = some nm) :
    convertElementToField c element = .ok
      ({ name := formatFieldName c element.name
         typeName := nm
         number := c.fieldCounter
         label := determineFieldLabel element.minOccurs element.maxOccurs },
       { c with fieldCounter := c.fieldCounter + 1 }) := by
  obtain ⟨v, hv⟩ := mapXSDType_isOk c.typeMapper element.typeName
  simp only [convertElementToField, hv, harr, hb, Bool.false_eq_true, if_false, hlk]
  rw [if_neg (fun h => h rfl)]

theorem convertAttributeToField_spec (c : Converter) (attr : Attribute) :
    ∃ f : ProtoField,
      convertAttributeToField c attr = .ok (f, { c with fieldCounter := c.fieldCounter + 1 }) ∧
      f.number = c.fieldCounter ∧
      f.name = formatFieldName c attr.name ∧
      f.label = determineAttributeLabel attr.use := by
  obtain ⟨v, hv⟩ := mapXSDType_isOk c.typeMapper attr.typeName
  simp only [convertAttributeToField, hv]
  exact ⟨_, rfl, rfl, rfl, rfl⟩

theorem convertSeqFields_spec : ∀ (els : List ChildElement) (c : Converter),
    ∃ fs, convertSeqFields c els = .ok (fs, { c with fieldCounter := c.fieldCounter + els.length }) ∧
      fs.map (fun f => f.number) = List.range' c.fieldCounter els.length ∧
      fs.map (fun f => f.name) = els.map (fun e => formatFieldName c e.name) ∧
      fs.length = els.length := by
  intro els
  induction els with
  | nil =>
    intro c
    exact ⟨[], by simp [convertSeqFields], by simp, by simp, rfl⟩
  | cons e rest ih =>
    intro c
    obtain ⟨f, hf, hnum, hname, _, _⟩ := convertElementToField_spec c e
    obtain ⟨fs, hfs, hnums, hnames, hlen⟩ := ih { c with fieldCounter := c.fieldCounter + 1 }
    refine ⟨f :: fs, ?_, ?_, ?_, ?_⟩
    · simp only [convertSeqFields, hf, hfs]
      have : c.fieldCounter + 1 + rest.length = c.fieldCounter + (e :: rest).length := by
        simp; omega
      rw [this]
    · simp only [List.map_cons, hnums, hnum, List.length_cons, List.range'_succ]
    · simp only [List.map_cons, hnames, hname, formatFieldName_update]
    · simp [hlen]

theorem convertChoiceFields_spec : ∀ (els : List ChildElement) (c : Converter),
    ∃ fs, convertChoiceFields c els = .ok (fs, { c with fieldCounter := c.fieldCounter + els.length }) ∧
      fs.map (fun f => f.number) = List.range' c.fieldCounter els.length ∧
      fs.map (fun f => f.name) = els.map (fun e => formatFieldName c e.name) ∧
      fs.length = els.length ∧
      ∀ f ∈ fs, f.label = FieldLabel.optional := by
  intro els
  induction els with
  | nil =>
    intro c
    exact ⟨[], by simp [convertChoiceFields], by simp, by simp, rfl, by simp⟩
  | cons e rest ih =>
    intro c
    obtain ⟨f, hf, hnum, hname, _, _⟩ := convertElementToField_spec c e
    obtain ⟨fs, hfs, hnums, hnames, hlen, hlab⟩ := ih { c with fieldCounter := c.fieldCounter + 1 }
    refine ⟨{ f with label := FieldLabel.optional } :: fs, ?_, ?_, ?_, ?_, ?_⟩
    · simp only [convertChoiceFields, hf, hfs]
      have : c.fieldCounter + 1 + rest.length = c.fieldCounter + (e :: rest).length := by
        simp; omega
      rw [this]
    · simp only [List.map_cons, hnums, List.length_cons, List.range'_succ]
      simp [hnum]
    · simp only [List.map_cons, hnames, formatFieldName_update]
      simp [hname]
    · simp [hlen]
    · intro g hg
      rcases List.mem_cons.mp hg with hg | hg
      · subst hg; rfl
      · exact hlab g hg

theorem convertAttrFields_spec : ∀ (attrs : List Attribute) (c : Converter),
    ∃ fs, convertAttrFields c attrs = .ok (fs, { c with fieldCounter := c.fieldCounter + attrs.length }) ∧
      fs.map (fun f => f.number) = List.range' c.fieldCounter attrs.length ∧
      fs.map (fun f => f.name) = attrs.map (fun a => formatFieldName c a.name) ∧
      fs.length = attrs.length ∧
      fs.map (fun f => f.label) = attrs.map (fun a => determineAttributeLabel a.use) := by
  intro attrs
  induction attrs with
  | nil =>
    intro c
    exact ⟨[], by simp [convertAttrFields], by simp, by simp, rfl, by simp⟩
  | cons a rest ih =>
    intro c
    obtain ⟨f, hf, hnum, hname, hlab⟩ := convertAttributeToField_spec c a
    obtain ⟨fs, hfs, hnums, hnames, hlen, hlabs⟩ := ih { c with fieldCounter := c.fieldCounter + 1 }
    refine ⟨f :: fs, ?_, ?_, ?_, ?_, ?_⟩
    · simp only [convertAttrFields, hf, hfs]
      have : c.fieldCounter + 1 + rest.length = c.fieldCounter + (a :: rest).length := by
        simp; omega
      rw [this]
    · simp only [List.map_cons, hnums, hnum, List.length_cons, List.range'_succ]
    · simp only [List.map_cons, hnames, hname, formatFieldName_update]
    · simp [hlen]
    · simp only [List.map_cons, hlabs, hlab]

theorem formatFieldName_congr (c₁ c₂ : Converter) (hcc : c₁.useCamelCase = c₂.useCamelCase)
    (hpc : c₁.usePascalCase = c₂.usePascalCase) (n : String) :
    formatFieldName c₁ n = formatFieldName c₂ n := by
  unfold formatFieldName
  rw [hcc, hpc]

/-- Full characterization of `convertComplexType`: it always succeeds, the
message name is the fresh unique name, the state change is exactly the
name/rename-map reservation plus the field counter, and the fields are the
sequence fields, then the choice fields (all `optional`), then the
attribute fields, numbered `1..N`. -/
theorem convertComplexType_full (c : Converter) (ct : ComplexType) :
    ∃ msg : ProtoMessage,
      convertComplexType c ct = .ok (msg,
        { c with usedMessageNames := msg.name :: c.usedMessageNames
                 typeRenameMap := (ct.name, msg.name) :: c.typeRenameMap
                 fieldCounter :=
                   1 + (seqElements ct).length + (choiceElements ct).length + ct.attributes.length }) ∧
      msg.name = (generateUniqueMessageName c ct.name).1 ∧
      msg.name ∉ c.usedMessageNames ∧ msg.name ∉ c.usedEnumNames ∧
      msg.fields.length = (seqElements ct).length + (choiceElements ct).length + ct.attributes.length ∧
      msg.fields.map (fun f => f.number) = List.range' 1 msg.fields.length ∧
      ∃ fseq fch fat,
        msg.fields = fseq ++ fch ++ fat ∧
        fseq.length = (seqElements ct).length ∧
        fch.length = (choiceElements ct).length ∧
        fat.length = ct.attributes.length ∧
        (∀ f ∈ fch, f.label = FieldLabel.optional) ∧
        fat.map (fun f => f.label) = ct.attributes.map (fun a => determineAttributeLabel a.use) ∧
        fseq.map (fun f => f.name) = (seqElements ct).map (fun e => formatFieldName c e.name) ∧
        fch.map (fun f => f.name) = (choiceElements ct).map (fun e => formatFieldName c e.name) ∧
        fat.map (fun f => f.name) = ct.attributes.map (fun a => formatFieldName c a.name) := by
  obtain ⟨hm1, hm2⟩ := genMsgName_fresh c ct.name
  have hst := genMsgName_state c ct.name
  obtain ⟨fseq, hseq, hseqnum, hseqname, hseqlen⟩ :=
    convertSeqFields_spec (seqElements ct)
      { c with usedMessageNames := (generateUniqueMessageName c ct.name).1 :: c.usedMessageNames
               typeRenameMap := (ct.name, (generateUniqueMessageName c ct.name).1) :: c.typeRenameMap
               fieldCounter := 1 }
  try dsimp only at hseq
  try dsimp only at hseqnum
  try dsimp only at hseqname
  obtain ⟨fch, hch, hchnum, hchname, hchlen, hchlab⟩ :=
    convertChoiceFields_spec (choiceElements ct)
      { c with usedMessageNames := (generateUniqueMessageName c ct.name).1 :: c.usedMessageNames
               typeRenameMap := (ct.name, (generateUniqueMessageName c ct.name).1) :: c.typeRenameMap
               fieldCounter := 1 + (seqElements ct).length }
  try dsimp only at hch
  try dsimp only at hchnum
  try dsimp only at hchname
  obtain ⟨fat, hat, hatnum, hatname, hatlen, hatlab⟩ :=
    convertAttrFields_spec ct.attributes
      { c with usedMessageNames := (generateUniqueMessageName c ct.name).1 :: c.usedMessageNames
               typeRenameMap := (ct.name, (generateUniqueMessageName c ct.name).1) :: c.typeRenameMap
               fieldCounter := 1 + (seqElements ct).length + (choiceElements ct).length }
  try dsimp only at hat
  try dsimp only at hatnum
  try dsimp only at hatname
  refine ⟨{ name := (generateUniqueMessageName c ct.name).1, fields := fseq ++ fch ++ fat }, ?_,
    rfl, hm1, hm2, ?_, ?_, fseq, fch, fat, rfl, hseqlen, hchlen, hatlen, hchlab, ?_, ?_, ?_, ?_⟩
  · simp only [convertComplexType, hst]
    try dsimp only
    rw [hseq]
    try dsimp only
    rw [hch]
    try dsimp only
    rw [hat]
  · rw [List.length_append, List.length_append, hseqlen, hchlen, hatlen]
  · have h1 : fseq.map (fun f => f.number) = List.range' 1 (seqElements ct).length := hseqnum
    have h2 : fch.map (fun f => f.number) =
        List.range' (1 + (seqElements ct).length) (choiceElements ct).length := hchnum
    have h3 : fat.map (fun f => f.number) =
        List.range' (1 + (seqElements ct).length + (choiceElements ct).length) ct.attributes.length := hatnum
    have hlen : (fseq ++ fch ++ fat).length =
        (seqElements ct).length + (choiceElements ct).length + ct.attributes.length := by
      rw [List.length_append, List.length_append, hseqlen, hchlen, hatlen]
    show ((fseq ++ fch ++ fat).map fun f => f.number) = _
    rw [hlen, List.map_append, List.map_append, h1, h2, h3,
      range'_append_sum 1 (seqElements ct).length (choiceElements ct).length]
    rw [Nat.add_assoc 1 (seqElements ct).length (choiceElements ct).length]
    exact range'_append_sum 1 ((seqElements ct).length + (choiceElements ct).length) ct.attributes.length
  · rw [hatlab]
  · rw [hseqname]
    exact List.map_congr_left (fun e _ => formatFieldName_congr _ _ rfl rfl _)
  · rw [hchname]
    exact List.map_congr_left (fun e _ => formatFieldName_congr _ _ rfl rfl _)
  · rw [hatname]
    exact List.map_congr_left (fun a _ => formatFieldName_congr _ _ rfl rfl _)

/-- The element as it stands after `convertElementToMessage`: the inline
complex type's `Name` has been overwritten with the chosen message name
(a no-op when the inline type already carried a non-empty name). -/
def updateElement (el : Element) : Element :=
  match el.complexType with
  | none => el
  | some ct =>
    { el with complexType := some { ct with name := if ct.name ≠ "" then ct.name else el.name } }

theorem convertElementToMessage_full (c : Converter) (el : Element) (ct : ComplexType)
    (hct : el.complexType = some ct) :
    ∃ msg c', convertElementToMessage c el = .ok (msg, updateElement el, c') ∧
      c'.usedMessageNames = msg.name :: c.usedMessageNames ∧
      c'.usedEnumNames = c.usedEnumNames ∧
      c'.usedEnumValues = c.usedEnumValues ∧
      c'.enumValueCounters = c.enumValueCounters ∧
      c'.typeMapper = c.typeMapper ∧
      c'.useCamelCase = c.useCamelCase ∧
      c'.usePascalCase = c.usePascalCase ∧
      c'.currentSchema = c.currentSchema ∧
      msg.name ∉ c.usedMessageNames ∧ msg.name ∉ c.usedEnumNames ∧
      msg.fields.map (fun f => f.number) = List.range' 1 msg.fields.length := by
  obtain ⟨msg, heq, _, hfr1, hfr2, _, hnum, _⟩ :=
    convertComplexType_full c { ct with name := if ct.name ≠ "" then ct.name else el.name }
  refine ⟨msg,
    { c with usedMessageNames := msg.name :: c.usedMessageNames
             typeRenameMap :=
               ((if ct.name ≠ "" then ct.name else el.name), msg.name) :: c.typeRenameMap
             fieldCounter :=
               1 + (seqElements { ct with name := if ct.name ≠ "" then ct.name else el.name }).length
                 + (choiceElements { ct with name := if ct.name ≠ "" then ct.name else el.name }).length
                 + ct.attributes.length },
    ?_, rfl, rfl, rfl, rfl, rfl, rfl, rfl, rfl, hfr1, hfr2, hnum⟩
  simp only [convertElementToMessage, hct, updateElement]
  rw [heq]

theorem convertEnumValues_spec (nm : String) : ∀ (l : List Enumeration) (i : Nat) (c : Converter),
    ((convertEnumValues nm l i c).1).map (fun v => v.number) = List.range' (i + 1) l.length ∧
    ((convertEnumValues nm l i c).2).usedEnumNames = c.usedEnumNames ∧
    ((convertEnumValues nm l i c).2).usedMessageNames = c.usedMessageNames ∧
    ((convertEnumValues nm l i c).2).typeRenameMap = c.typeRenameMap ∧
    ((convertEnumValues nm l i c).2).typeMapper = c.typeMapper ∧
    ((convertEnumValues nm l i c).2).useCamelCase = c.useCamelCase ∧
    ((convertEnumValues nm l i c).2).usePascalCase = c.usePascalCase ∧
    ((convertEnumValues nm l i c).2).currentSchema = c.currentSchema ∧
    ((convertEnumValues nm l i c).2).fieldCounter = c.fieldCounter := by
  intro l
  induction l with
  | nil =>
    intro i c
    exact ⟨rfl, rfl, rfl, rfl, rfl, rfl, rfl, rfl, rfl⟩
  | cons e rest ih =>
    intro i c
    obtain ⟨evc, hst⟩ := genEnumValue_state c nm e.value false
    obtain ⟨hnum, h1, h2, h3, h4, h5, h6, h7, h8⟩ :=
      ih (i + 1) (generateUniqueEnumValueName c nm e.value false).2
    simp only [convertEnumValues]
    refine ⟨?_, ?_, ?_, ?_, ?_, ?_, ?_, ?_, ?_⟩
    · simp only [List.map_cons, hnum, List.length_cons, List.range'_succ]
    · rw [h1, hst]
    · rw [h2, hst]
    · rw [h3, hst]
    · rw [h4, hst]
    · rw [h5, hst]
    · rw [h6, hst]
    · rw [h7, hst]
    · rw [h8, hst]

theorem convertSimpleTypeToEnum_full (c : Converter) (st : SimpleType) :
    ((convertSimpleTypeToEnum c st).2).usedEnumNames =
        ((convertSimpleTypeToEnum c st).1).name :: c.usedEnumNames ∧
    ((convertSimpleTypeToEnum c st).2).usedMessageNames = c.usedMessageNames ∧
    ((convertSimpleTypeToEnum c st).2).typeMapper = c.typeMapper ∧
    ((convertSimpleTypeToEnum c st).2).useCamelCase = c.useCamelCase ∧
    ((convertSimpleTypeToEnum c st).2).usePascalCase = c.usePascalCase ∧
    ((convertSimpleTypeToEnum c st).2).currentSchema = c.currentSchema ∧
    ((convertSimpleTypeToEnum c st).2).fieldCounter = c.fieldCounter ∧
    ((convertSimpleTypeToEnum c st).1).name ∉ c.usedEnumNames ∧
    ((convertSimpleTypeToEnum c st).1).name ∉ c.usedMessageNames ∧
    ∃ v0 vs, ((convertSimpleTypeToEnum c st).1).values = v0 :: vs ∧
      v0.number = 0 ∧
      (v0.name = strUpper (toSnakeCase ((convertSimpleTypeToEnum c st).1).name) ++ "_UNSPECIFIED" ∨
        ∃ k, 1 ≤ k ∧
          v0.name =
            strUpper (toSnakeCase ((convertSimpleTypeToEnum c st).1).name) ++ "_UNSPECIFIED" ++ natRepr k) ∧
      (∀ v ∈ vs, v.number ≠ 0) ∧
      vs.map (fun v => v.number) = List.range' 1 vs.length := by
  obtain ⟨hf1, hf2⟩ := genEnumName_fresh c st.name
  have hst1 := genEnumName_state c st.name
  obtain ⟨evc, hst2⟩ := genEnumValue_state ((generateUniqueEnumName c st.name).2)
    ((generateUniqueEnumName c st.name).1) "UNSPECIFIED" true
  have hshape := genEnumValue_shape ((generateUniqueEnumName c st.name).2)
    ((generateUniqueEnumName c st.name).1) "UNSPECIFIED" true
  rw [if_pos rfl] at hshape
  obtain ⟨hnum, h1, h2, h3, h4, h5, h6, h7, h8⟩ := convertEnumValues_spec
    ((generateUniqueEnumName c st.name).1)
    (match st.restriction with | some r => r.enumerations | none => [])
    0
    ((generateUniqueEnumValueName ((generateUniqueEnumName c st.name).2)
      ((generateUniqueEnumName c st.name).1) "UNSPECIFIED" true).2)
  have hlen : ((convertEnumValues ((generateUniqueEnumName c st.name).1)
      (match st.restriction with | some r => r.enumerations | none => []) 0
      ((generateUniqueEnumValueName ((generateUniqueEnumName c st.name).2)
        ((generateUniqueEnumName c st.name).1) "UNSPECIFIED" true).2)).1).length =
      (match st.restriction with | some r => r.enumerations | none => ([] : List Enumeration)).length := by
    have := congrArg List.length hnum
    simpa using this
  simp only [convertSimpleTypeToEnum]
  refine ⟨?_, ?_, ?_, ?_, ?_, ?_, ?_, hf1, hf2, _, _, rfl, rfl, ?_, ?_, ?_⟩
  · rw [h1, hst2, hst1]
  · rw [h2, hst2, hst1]
  · rw [h4, hst2, hst1]
  · rw [h5, hst2, hst1]
  · rw [h6, hst2, hst1]
  · rw [h7, hst2, hst1]
  · rw [h8, hst2, hst1]
  · exact hshape
  · intro v hv
    have hmem := List.mem_map_of_mem (fun v => v.number) hv
    rw [hnum] at hmem
    obtain ⟨i, hi, he⟩ := List.mem_range'.mp hmem
    simp only [Nat.one_mul] at he
    omega
  · rw [hnum, hlen]

/-- The shape `Convert` guarantees for every emitted enum: a sentinel first
value numbered 0 whose name is the SCREAMING_SNAKE prefix plus
`_UNSPECIFIED` (with a numeric suffix when that name was already taken),
followed by the source values numbered `1..N`. -/
def enumSentinelOk (e : ProtoEnum) : Prop :=
  ∃ v0 vs, e.values = v0 :: vs ∧ v0.number = 0 ∧
    (v0.name = strUpper (toSnakeCase e.name) ++ "_UNSPECIFIED" ∨
      ∃ k, 1 ≤ k ∧ v0.name = strUpper (toSnakeCase e.name) ++ "_UNSPECIFIED" ++ natRepr k) ∧
    (∀ v ∈ vs, v.number ≠ 0) ∧
    vs.map (fun v => v.number) = List.range' 1 vs.length

theorem convertSimpleTypes_full : ∀ (sts : List SimpleType) (c : Converter),
    ((convertSimpleTypes c sts).2).usedEnumNames =
        (((convertSimpleTypes c sts).1).map (fun e => e.name)).reverse ++ c.usedEnumNames ∧
    ((convertSimpleTypes c sts).2).usedMessageNames = c.usedMessageNames ∧
    ((convertSimpleTypes c sts).2).typeMapper = c.typeMapper ∧
    ((convertSimpleTypes c sts).2).useCamelCase = c.useCamelCase ∧
    ((convertSimpleTypes c sts).2).usePascalCase = c.usePascalCase ∧
    ((convertSimpleTypes c sts).2).currentSchema = c.currentSchema ∧
    (((convertSimpleTypes c sts).1).map (fun e => e.name)).Nodup ∧
    (∀ n ∈ ((convertSimpleTypes c sts).1).map (fun e => e.name),
      n ∉ c.usedEnumNames ∧ n ∉ c.usedMessageNames) ∧
    (∀ e ∈ (convertSimpleTypes c sts).1, enumSentinelOk e) := by
  intro sts
  induction sts with
  | nil =>
    intro c
    refine ⟨rfl, rfl, rfl, rfl, rfl, rfl, ?_, ?_, ?_⟩
    · simp [convertSimpleTypes]
    · simp [convertSimpleTypes]
    · simp [convertSimpleTypes]
  | cons st rest ih =>
    intro c
    rcases hrst : st.restriction with _ | r
    · have := ih c
      simpa only [convertSimpleTypes, hrst] using this
    · by_cases hlen : r.enumerations.length > 0
      · obtain ⟨e1, e2, e3, e4, e5, e6, e7, ef1, ef2, hsent⟩ := convertSimpleTypeToEnum_full c st
        obtain ⟨i1, i2, i3, i4, i5, i6, i7, i8, i9⟩ := ih (convertSimpleTypeToEnum c st).2
        simp only [convertSimpleTypes, hrst, if_pos hlen]
        refine ⟨?_, ?_, ?_, ?_, ?_, ?_, ?_, ?_, ?_⟩
        · rw [i1, e1]
          simp [List.append_assoc]
        · rw [i2, e2]
        · rw [i3, e3]
        · rw [i4, e4]
        · rw [i5, e5]
        · rw [i6, e6]
        · simp only [List.map_cons, List.nodup_cons]
          refine ⟨?_, i7⟩
          intro hmem
          obtain ⟨hn1, _⟩ := i8 _ hmem
          rw [e1] at hn1
          exact hn1 (List.mem_cons_self _ _)
        · intro n hn
          have hn0 : n = (convertSimpleTypeToEnum c st).1.name ∨
              n ∈ ((convertSimpleTypes (convertSimpleTypeToEnum c st).2 rest).1).map
                (fun e => e.name) := by
            simpa only [List.map_cons, List.mem_cons] using hn
          rcases hn0 with hn' | hn'
          · subst hn'
            exact ⟨ef1, ef2⟩
          · obtain ⟨hn1, hn2⟩ := i8 n hn'
            rw [e1] at hn1
            rw [e2] at hn2
            exact ⟨fun hmem => hn1 (List.mem_cons_of_mem _ hmem), hn2⟩
        · intro e he
          rcases List.mem_cons.mp he with he' | he'
          · subst he'
            exact hsent
          · exact i9 e he'
      · have := ih c
        simpa only [convertSimpleTypes, hrst, if_neg hlen] using this

theorem convertComplexTypes_full : ∀ (cts : List ComplexType) (c : Converter),
    ∃ msgs c', convertComplexTypes c cts = .ok (msgs, c') ∧
      c'.usedMessageNames = (msgs.map (fun m => m.name)).reverse ++ c.usedMessageNames ∧
      c'.usedEnumNames = c.usedEnumNames ∧
      c'.usedEnumValues = c.usedEnumValues ∧
      c'.enumValueCounters = c.enumValueCounters ∧
      c'.typeMapper = c.typeMapper ∧
      c'.useCamelCase = c.useCamelCase ∧
      c'.usePascalCase = c.usePascalCase ∧
      c'.currentSchema = c.currentSchema ∧
      (msgs.map (fun m => m.name)).Nodup ∧
      (∀ n ∈ msgs.map (fun m => m.name), n ∉ c.usedMessageNames ∧ n ∉ c.usedEnumNames) ∧
      (∀ m ∈ msgs, m.fields.map (fun f => f.number) = List.range' 1 m.fields.length) := by
  intro cts
  induction cts with
  | nil =>
    intro c
    exact ⟨[], c, rfl, rfl, rfl, rfl, rfl, rfl, rfl, rfl, rfl, by simp, by simp, by simp⟩
  | cons ct rest ih =>
    intro c
    by_cases harr : isArrayOfPattern ct
    · obtain ⟨msgs, c', hres⟩ := ih c
      exact ⟨msgs, c', by simp only [convertComplexTypes, if_pos harr]; exact hres.1, hres.2.1,
        hres.2.2.1, hres.2.2.2.1, hres.2.2.2.2.1, hres.2.2.2.2.2.1, hres.2.2.2.2.2.2.1,
        hres.2.2.2.2.2.2.2.1, hres.2.2.2.2.2.2.2.2.1, hres.2.2.2.2.2.2.2.2.2.1,
        hres.2.2.2.2.2.2.2.2.2.2.1, hres.2.2.2.2.2.2.2.2.2.2.2⟩
    · obtain ⟨msg, heq, _, hfr1, hfr2, _, hnum, _⟩ := convertComplexType_full c ct
      obtain ⟨msgs, c', hres, j1, j2, j3, j4, j5, j6, j7, j8, j9, j10, j11⟩ :=
        ih { c with usedMessageNames := msg.name :: c.usedMessageNames
                    typeRenameMap := (ct.name, msg.name) :: c.typeRenameMap
                    fieldCounter :=
                      1 + (seqElements ct).length + (choiceElements ct).length + ct.attributes.length }
      refine ⟨msg :: msgs, c', ?_, ?_, j2, j3, j4, j5, j6, j7, j8, ?_, ?_, ?_⟩
      · simp only [convertComplexTypes, if_neg harr]
        rw [heq]
        try dsimp only
        rw [hres]
      · rw [j1]
        simp [List.append_assoc]
      · simp only [List.map_cons, List.nodup_cons]
        refine ⟨?_, j9⟩
        intro hmem
        obtain ⟨hn1, _⟩ := j10 _ hmem
        exact hn1 (List.mem_cons_self _ _)
      · intro n hn
        have hn0 : n = msg.name ∨ n ∈ msgs.map (fun m => m.name) := by
          simpa only [List.map_cons, List.mem_cons] using hn
        rcases hn0 with hn' | hn'
        · subst hn'
          exact ⟨hfr1, hfr2⟩
        · obtain ⟨hn1, hn2⟩ := j10 n hn'
          exact ⟨fun hmem => hn1 (List.mem_cons_of_mem _ hmem), hn2⟩
      · intro m hm
        rcases List.mem_cons.mp hm with hm' | hm'
        · subst hm'
          exact hnum
        · exact j11 m hm'

theorem convertElements_full : ∀ (els : List Element) (c : Converter),
    ∃ msgs els1 c', convertElements c els = .ok (msgs, els1, c') ∧
      els1 = els.map updateElement ∧
      c'.usedMessageNames = (msgs.map (fun m => m.name)).reverse ++ c.usedMessageNames ∧
      c'.usedEnumNames = c.usedEnumNames ∧
      c'.usedEnumValues = c.usedEnumValues ∧
      c'.enumValueCounters = c.enumValueCounters ∧
      c'.typeMapper = c.typeMapper ∧
      c'.useCamelCase = c.useCamelCase ∧
      c'.usePascalCase = c.usePascalCase ∧
      c'.currentSchema = c.currentSchema ∧
      (msgs.map (fun m => m.name)).Nodup ∧
      (∀ n ∈ msgs.map (fun m => m.name), n ∉ c.usedMessageNames ∧ n ∉ c.usedEnumNames) ∧
      (∀ m ∈ msgs, m.fields.map (fun f => f.number) = List.range' 1 m.fields.length) := by
  intro els
  induction els with
  | nil =>
    intro c
    exact ⟨[], [], c, rfl, rfl, rfl, rfl, rfl, rfl, rfl, rfl, rfl, rfl, by simp, by simp, by simp⟩
  | cons el rest ih =>
    intro c
    rcases hct : el.complexType with _ | ct
    · obtain ⟨msgs, els1, c', hres, k1, k2, k3, k4, k5, k6, k7, k8, k9, k10, k11, k12⟩ := ih c
      refine ⟨msgs, el :: els1, c', ?_, ?_, k2, k3, k4, k5, k6, k7, k8, k9, k10, k11, k12⟩
      · simp only [convertElements, hct]
        rw [hres]
      · rw [k1]
        have : updateElement el = el := by
          simp [updateElement, hct]
        rw [List.map_cons, this]
    · obtain ⟨msg, c1, heq, m1, m2, m3, m4, m5, m6, m7, m8, hfr1, hfr2, hnum⟩ :=
        convertElementToMessage_full c el ct hct
      obtain ⟨msgs, els1, c', hres, k1, k2, k3, k4, k5, k6, k7, k8, k9, k10, k11, k12⟩ := ih c1
      refine ⟨msg :: msgs, updateElement el :: els1, c', ?_, ?_, ?_, ?_, ?_, ?_, ?_, ?_, ?_, ?_,
        ?_, ?_, ?_⟩
      · simp only [convertElements, hct]
        rw [heq]
        try dsimp only
        rw [hres]
      · rw [k1, List.map_cons]
      · rw [k2, m1]
        simp [List.append_assoc]
      · rw [k3, m2]
      · rw [k4, m3]
      · rw [k5, m4]
      · rw [k6, m5]
      · rw [k7, m6]
      · rw [k8, m7]
      · rw [k9, m8]
      · simp only [List.map_cons, List.nodup_cons]
        refine ⟨?_, k10⟩
        intro hmem
        obtain ⟨hn1, _⟩ := k11 _ hmem
        rw [m1] at hn1
        exact hn1 (List.mem_cons_self _ _)
      · intro n hn
        have hn0 : n = msg.name ∨ n ∈ msgs.map (fun m => m.name) := by
          simpa only [List.map_cons, List.mem_cons] using hn
        rcases hn0 with hn' | hn'
        · subst hn'
          exact ⟨hfr1, hfr2⟩
        · obtain ⟨hn1, hn2⟩ := k11 n hn'
          rw [m1] at hn1
          rw [m2] at hn2
          exact ⟨fun hmem => hn1 (List.mem_cons_of_mem _ hmem), hn2⟩
      · intro m hm
        rcases List.mem_cons.mp hm with hm' | hm'
        · subst hm'
          exact hnum
        · exact k12 m hm'

theorem convert_full (c0 : Converter) (schema : Schema) :
    ∃ pf sch c', c0.convert schema = .ok (pf, sch, c') ∧
      sch = { schema with elements := schema.elements.map updateElement } ∧
      (pf.messages.map (fun m => m.name) ++ pf.enums.map (fun e => e.name)).Nodup ∧
      (∀ m ∈ pf.messages, m.fields.map (fun f => f.number) = List.range' 1 m.fields.length) ∧
      (∀ e ∈ pf.enums, enumSentinelOk e) ∧
      pf.syn = "proto3" ∧
      pf.packageName = generatePackageName schema.targetNamespace := by
  obtain ⟨p1, p2, p3, p4, p5, p6, p7, p8, p9⟩ :=
    convertSimpleTypes_full schema.simpleTypes { c0 with currentSchema := some schema }
  obtain ⟨msgs1, c2, hres2, j1, j2, j3, j4, j5, j6, j7, j8, j9, j10, j11⟩ :=
    convertComplexTypes_full schema.complexTypes
      ((convertSimpleTypes { c0 with currentSchema := some schema } schema.simpleTypes).2)
  obtain ⟨msgs2, els1, c3, hres3, k1, k2, k3, k4, k5, k6, k7, k8, k9, k10, k11, k12⟩ :=
    convertElements_full schema.elements c2
  refine ⟨{ syn := "proto3"
            packageName := generatePackageName schema.targetNamespace
            options := []
            fileImports := c3.typeMapper.getRequiredImports
              ((msgs1 ++ msgs2).flatMap (fun m => m.fields.map (fun f => f.typeName)))
            messages := msgs1 ++ msgs2
            enums := (convertSimpleTypes { c0 with currentSchema := some schema }
              schema.simpleTypes).1 },
    { schema with elements := els1 }, c3, ?_, ?_, ?_, ?_, ?_, rfl, rfl⟩
  · simp only [Converter.convert]
    rw [hres2]
    try dsimp only
    rw [hres3]
  · rw [k1]
  · dsimp only
    rw [List.nodup_append]
    refine ⟨?_, p7, ?_⟩
    · rw [List.map_append, List.nodup_append]
      refine ⟨j9, k10, ?_⟩
      intro n hn1 hn2
      obtain ⟨hm, _⟩ := k11 n hn2
      rw [j1] at hm
      exact hm (List.mem_append_left _ (by simpa using hn1))
    · intro n hn
      rw [List.map_append] at hn
      intro hmem
      rcases List.mem_append.mp hn with hn' | hn'
      · obtain ⟨_, he⟩ := j10 n hn'
        rw [p1] at he
        exact he (List.mem_append_left _ (by simpa using hmem))
      · obtain ⟨_, he⟩ := k11 n hn'
        rw [j2, p1] at he
        exact he (List.mem_append_left _ (by simpa using hmem))
  · dsimp only
    intro m hm
    rcases List.mem_append.mp hm with hm' | hm'
    · exact j11 m hm'
    · exact k12 m hm'
  · dsimp only
    exact p9

theorem takeWhile_append_stop {α : Type} (p : α → Bool) :
    ∀ (xs : List α) (y : α) (ys : List α), (∀ x ∈ xs, p x = true) → p y = false →
      (xs ++ y :: ys).takeWhile p = xs := by
  intro xs
  induction xs with
  | nil =>
    intro y ys _ hy
    simp [List.takeWhile, hy]
  | cons a t ih =>
    intro y ys hall hy
    have ha : p a = true := hall a (by simp)
    simp only [List.cons_append, List.takeWhile, ha]
    exact congrArg (List.cons a) (ih y ys (fun x hx => hall x (by simp [hx])) hy)

theorem takeWhile_all {α : Type} (p : α → Bool) :
    ∀ (xs : List α), (∀ x ∈ xs, p x = true) → xs.takeWhile p = xs := by
  intro xs
  induction xs with
  | nil => intro _; rfl
  | cons a t ih =>
    intro hall
    have ha : p a = true := hall a (by simp)
    simp only [List.takeWhile, ha]
    rw [ih (fun x hx => hall x (by simp [hx]))]

theorem cleanTypeName_no_colon (t : String) (ht : ':' ∉ t.data) : cleanTypeName t = t := by
  unfold cleanTypeName
  rw [takeWhile_all]
  · simp
  · intro x hx
    simp only [decide_eq_true_eq]
    intro hxc
    subst hxc
    exact ht (List.mem_reverse.mp hx)

theorem cleanTypeName_strip (p t : String) (ht : ':' ∉ t.data) :
    cleanTypeName (p ++ ":" ++ t) = t := by
  unfold cleanTypeName
  have hdata : (p ++ ":" ++ t).data = p.data ++ ':' :: t.data := by
    have h1 : (p ++ ":" ++ t).data = (p.data ++ [':']) ++ t.data := rfl
    rw [h1, List.append_assoc]
    rfl
  rw [hdata]
  have hrev : (p.data ++ ':' :: t.data).reverse = t.data.reverse ++ ':' :: p.data.reverse := by
    simp
  rw [hrev, takeWhile_append_stop]
  · simp
  · intro x hx
    simp only [decide_eq_true_eq]
    intro hxc
    subst hxc
    exact ht (List.mem_reverse.mp hx)
  · simp

theorem splitCharList_ne_nil (sep : Char) : ∀ (l : List Char), splitCharList sep l ≠ [] := by
  intro l
  induction l with
  | nil => simp [splitCharList]
  | cons c rest ih =>
    by_cases h : c = sep
    · simp [splitCharList, h]
    · simp only [splitCharList, if_neg h]
      rcases hr : splitCharList sep rest with _ | ⟨hd, tl⟩
      · simp
      · simp

theorem hasPrefixStr_append (p t : String) : hasPrefixStr (p ++ t) p = true := by
  unfold hasPrefixStr
  rw [List.isPrefixOf_iff_prefix]
  exact List.prefix_append p.data t.data

theorem trimPrefixStr_append (p t : String) : trimPrefixStr (p ++ t) p = t := by
  unfold trimPrefixStr
  rw [if_pos (hasPrefixStr_append p t)]
  have : (p ++ t).data = p.data ++ t.data := rfl
  rw [this, List.drop_left]

/-- Resolution of a custom (non-built-in) attribute type through the rename
map: the newest entry for the cleaned declared type wins. -/
theorem convertAttributeToField_renamed (c : Converter) (attr : Attribute) (nm : String)
    (hb : c.typeMapper.isBuiltInType attr.typeName = false)
    (hlk : c.typeRenameMap.lookup (cleanTypeName attr.typeName) = some nm) :
    convertAttributeToField c attr = .ok
      ({ name := formatFieldName c attr.name
         typeName := nm
         number := c.fieldCounter
         label := determineAttributeLabel attr.use },
       { c with fieldCounter := c.fieldCounter + 1 }) := by
  obtain ⟨v, hv⟩ := mapXSDType_isOk c.typeMapper attr.typeName
  simp only [convertAttributeToField, hv, hb, Bool.false_eq_true, if_false, hlk]

theorem urn_shape (s : String) (h : hasPrefixStr s "urn:" = true) :
    ∃ t, s.data = 'u' :: 'r' :: 'n' :: ':' :: t := by
  unfold hasPrefixStr at h
  rw [List.isPrefixOf_iff_prefix] at h
  obtain ⟨t, ht⟩ := h
  exact ⟨t, by rw [← ht]; rfl⟩

theorem urn_not_other (s : String) (h : hasPrefixStr s "urn:" = true) :
    hasPrefixStr s "http://" = false ∧ hasPrefixStr s "https://" = false ∧
    hasPrefixStr s "./" = false ∧ s ≠ "" := by
  obtain ⟨t, ht⟩ := urn_shape s h
  refine ⟨?_, ?_, ?_, ?_⟩
  · unfold hasPrefixStr
    rw [ht]
    rfl
  · unfold hasPrefixStr
    rw [ht]
    rfl
  · unfold hasPrefixStr
    rw [ht]
    rfl
  · intro he
    rw [he] at ht
    simp at ht

/-- The `Person` collision scenario: one top-level complex type named
`Person` and one inline complex type with the same name under a top-level
element named `person`. -/
def sPersonCollision : Schema :=
  { targetNamespace := ""
    elements := [{ name := "person", typeName := "", minOccurs := "", maxOccurs := ""
                   complexType := some { name := "Person", sequence := none, choice := none,
                                         attributes := [] }
                   simpleType := none }]
    complexTypes := [{ name := "Person", sequence := none, choice := none, attributes := [] }]
    simpleTypes := [] }

/-- Two enum declarations whose generated value names collide globally:
`Foo` contributes the value `FOO_BAR_UNSPECIFIED`, which is exactly the
sentinel name of the later enum `fooBar`. -/
def sEnumClash : Schema :=
  { targetNamespace := ""
    elements := []
    complexTypes := []
    simpleTypes :=
      [{ name := "Foo"
         restriction := some { base := "string", enumerations := [{ value := "BAR_UNSPECIFIED" }]
                               pattern := none, minLength := none, maxLength := none }
         union := none, list := none },
       { name := "fooBar"
         restriction := some { base := "string", enumerations := [{ value := "X" }]
                               pattern := none, minLength := none, maxLength := none }
         union := none, list := none }] }

/-- An `ArrayOf`-pattern wrapper for `Foo`. -/
def ctArrayOfFoo : ComplexType :=
  { name := "ArrayOfFoo"
    sequence := some { elements := [{ name := "item", typeName := "Foo", minOccurs := ""
                                      maxOccurs := "unbounded" }]
                       minOccurs := "", maxOccurs := "" }
    choice := none
    attributes := [] }

/-- A message referencing the wrapper from a sequence element, a choice
element and an attribute. -/
def ctHolder : ComplexType :=
  { name := "Holder"
    sequence := some { elements := [{ name := "foos", typeName := "ArrayOfFoo", minOccurs := ""
                                      maxOccurs := "" }]
                       minOccurs := "", maxOccurs := "" }
    choice := some { elements := [{ name := "altFoos", typeName := "ArrayOfFoo", minOccurs := ""
                                    maxOccurs := "" }]
                     minOccurs := "", maxOccurs := "" }
    attributes := [{ name := "attrFoos", typeName := "ArrayOfFoo", use := "required" }] }

/-- An inline complex type (under a top-level element) that itself matches
the `ArrayOf` wrapper pattern. -/
def ctInlineArray : ComplexType :=
  { name := "ArrayOfBaz"
    sequence := some { elements := [{ name := "baz", typeName := "string", minOccurs := ""
                                      maxOccurs := "unbounded" }]
                       minOccurs := "", maxOccurs := "" }
    choice := none
    attributes := [] }

/-- Wrapper + holder + inline-wrapper element, exercising the `ArrayOf`
collapsing from all field kinds. -/
def sArrayPattern : Schema :=
  { targetNamespace := ""
    elements := [{ name := "e1", typeName := "", minOccurs := "", maxOccurs := ""
                   complexType := some ctInlineArray, simpleType := none }]
    complexTypes := [ctArrayOfFoo, ctHolder]
    simpleTypes := [] }

/-- A holder with only a sequence reference to the wrapper (the spec's
`repeated Foo` scenario). -/
def ctHolderSeq : ComplexType :=
  { name := "Holder"
    sequence := some { elements := [{ name := "foos", typeName := "ArrayOfFoo", minOccurs := ""
                                      maxOccurs := "" }]
                       minOccurs := "", maxOccurs := "" }
    choice := none
    attributes := [] }

/-- Wrapper + sequence-only holder. -/
def sArrayOnly : Schema :=
  { targetNamespace := ""
    elements := []
    complexTypes := [ctArrayOfFoo, ctHolderSeq]
    simpleTypes := [] }

/-- One element with an anonymous inline complex type: converting it
overwrites the inline type's empty name with the element name. -/
def sInlineUnnamed : Schema :=
  { targetNamespace := ""
    elements := [{ name := "person", typeName := "", minOccurs := "", maxOccurs := ""
                   complexType := some { name := "", sequence := none, choice := none,
                                         attributes := [] }
                   simpleType := none }]
    complexTypes := []
    simpleTypes := [] }

/-- Two complex types sharing the original name `Person`, with a `Holder`
referencing `Person` converted between them. -/
def sRenameOverwrite : Schema :=
  { targetNamespace := ""
    elements := []
    complexTypes :=
      [{ name := "Person", sequence := none, choice := none, attributes := [] },
       { name := "Holder"
         sequence := some { elements := [{ name := "p", typeName := "Person", minOccurs := ""
                                           maxOccurs := "" }]
                            minOccurs := "", maxOccurs := "" }
         choice := none, attributes := [] },
       { name := "Person", sequence := none, choice := none, attributes := [] }]
    simpleTypes := [] }

/-- C1: for every input schema, the message names and enum names emitted by
`Convert` share one namespace and contain no duplicates; a declaration whose
PascalCase name is still free keeps it unsuffixed, a colliding declaration
receives a numeric suffix starting at 2; two complex types named `Person`
(one top-level, one inline under an element named `person`) yield messages
`Person` and `Person2` in first-seen order. -/
theorem C1_unique_names :
    (∀ (cc pc : Bool) (schema : Schema) (pf : ProtoFile) (sch : Schema) (c : Converter),
        (Converter.new.setFieldNamingStyle cc pc).convert schema = .ok (pf, sch, c) →
        (pf.messages.map (fun m => m.name) ++ pf.enums.map (fun e => e.name)).Nodup) ∧
    (∀ (c : Converter) (originalName : String),
        (formatMessageName originalName ∉ c.usedMessageNames ∧
            formatMessageName originalName ∉ c.usedEnumNames →
          (generateUniqueMessageName c originalName).1 = formatMessageName originalName) ∧
        (¬ (formatMessageName originalName ∉ c.usedMessageNames ∧
            formatMessageName originalName ∉ c.usedEnumNames) →
          ∃ k, 2 ≤ k ∧ (generateUniqueMessageName c originalName).1 =
            formatMessageName originalName ++ natRepr k)) ∧
    (match Converter.new.convert sPersonCollision with
      | .ok (pf, _, _) => pf.messages.map (fun m => m.name)
      | .error _ => []) = ["Person", "Person2"] := by
  refine ⟨?_, ?_, ?_⟩
  · intro cc pc schema pf sch c h
    obtain ⟨pf', sch', c', heq, _, hnodup, _⟩ :=
      convert_full (Converter.new.setFieldNamingStyle cc pc) schema
    rw [h] at heq
    simp only [Except.ok.injEq, Prod.mk.injEq] at heq
    obtain ⟨hpf, _, _⟩ := heq
    rw [hpf]
    exact hnodup
  · intro c originalName
    exact genMsgName_shape c originalName
  · decide

/-- Witness for C1 at the `Person` collision schema. -/
theorem C1_unique_names_witness :
    ∃ pf sch c, Converter.new.convert sPersonCollision = .ok (pf, sch, c) ∧
      (pf.messages.map (fun m => m.name) ++ pf.enums.map (fun e => e.name)).Nodup :=
  ⟨_, _, _, rfl, C1_unique_names.1 false false sPersonCollision _ _ _ rfl⟩

/-- C2: every message emitted by `Convert` has field numbers exactly `1..N`
in ascending order with no gaps or repeats, and `convertComplexType` builds
the field list as sequence fields, then choice fields, then attribute
fields (names in source order). -/
theorem C2_field_numbering :
    (∀ (cc pc : Bool) (schema : Schema) (pf : ProtoFile) (sch : Schema) (c : Converter),
        (Converter.new.setFieldNamingStyle cc pc).convert schema = .ok (pf, sch, c) →
        ∀ m ∈ pf.messages, m.fields.map (fun f => f.number) = List.range' 1 m.fields.length) ∧
    (∀ (c : Converter) (ct : ComplexType), ∃ msg c',
        convertComplexType c ct = .ok (msg, c') ∧
        msg.fields.map (fun f => f.number) = List.range' 1 msg.fields.length ∧
        ∃ fseq fch fat, msg.fields = fseq ++ fch ++ fat ∧
          fseq.length = (seqElements ct).length ∧
          fch.length = (choiceElements ct).length ∧
          fat.length = ct.attributes.length ∧
          fseq.map (fun f => f.name) = (seqElements ct).map (fun e => formatFieldName c e.name) ∧
          fch.map (fun f => f.name) = (choiceElements ct).map (fun e => formatFieldName c e.name) ∧
          fat.map (fun f => f.name) = ct.attributes.map (fun a => formatFieldName c a.name)) := by
  constructor
  · intro cc pc schema pf sch c h
    obtain ⟨pf', sch', c', heq, _, _, hnum, _⟩ :=
      convert_full (Converter.new.setFieldNamingStyle cc pc) schema
    rw [h] at heq
    simp only [Except.ok.injEq, Prod.mk.injEq] at heq
    obtain ⟨hpf, _, _⟩ := heq
    rw [hpf]
    exact hnum
  · intro c ct
    obtain ⟨msg, heq, _, _, _, _, hnum, fseq, fch, fat, hdec, hl1, hl2, hl3, _, _, hs, hc, ha⟩ :=
      convertComplexType_full c ct
    exact ⟨msg, _, heq, hnum, fseq, fch, fat, hdec, hl1, hl2, hl3, hs, hc, ha⟩

/-- Witness for C2 at the wrapper/holder schema. -/
theorem C2_field_numbering_witness :
    ∃ pf sch c, Converter.new.convert sArrayPattern = .ok (pf, sch, c) ∧
      ∀ m ∈ pf.messages, m.fields.map (fun f => f.number) = List.range' 1 m.fields.length :=
  ⟨_, _, _, rfl, C2_field_numbering.1 false false sArrayPattern _ _ _ rfl⟩

/-- C9: `Convert` never returns an error (it always returns an `ok` result),
and `MapXSDType` is total: every branch returns a nil error. -/
theorem C9_convert_never_errors :
    (∀ (cc pc : Bool) (schema : Schema),
        ∃ pf sch c, (Converter.new.setFieldNamingStyle cc pc).convert schema = .ok (pf, sch, c)) ∧
    (∀ (tm : TypeMapper) (t : String), ∃ v, tm.mapXSDType t = .ok v) := by
  constructor
  · intro cc pc schema
    obtain ⟨pf, sch, c, heq, _⟩ := convert_full (Converter.new.setFieldNamingStyle cc pc) schema
    exact ⟨pf, sch, c, heq⟩
  · exact mapXSDType_isOk

/-- C3 counterexample: in `sEnumClash` the second enum's final name is
`FooBar` (SCREAMING_SNAKE prefix `FOO_BAR`), but its first value is named
`FOO_BAR_UNSPECIFIED1`, not `FOO_BAR_UNSPECIFIED`, because the earlier enum
`Foo` already used `FOO_BAR_UNSPECIFIED` for its value `BAR_UNSPECIFIED`
(enum value names are deduplicated globally across the file). -/
theorem C3_enum_sentinel_counterexample :
    (match Converter.new.convert sEnumClash with
      | .ok (pf, _, _) => pf.enums.map (fun e => (e.name, e.values.map (fun v => (v.name, v.number))))
      | .error _ => []) =
      [("Foo", [("FOO_UNSPECIFIED", 0), ("FOO_BAR_UNSPECIFIED", 1)]),
       ("FooBar", [("FOO_BAR_UNSPECIFIED1", 0), ("FOO_BAR_X", 1)])] ∧
    strUpper (toSnakeCase "FooBar") ++ "_UNSPECIFIED" = "FOO_BAR_UNSPECIFIED" ∧
    ("FOO_BAR_UNSPECIFIED1" : String) ≠ "FOO_BAR_UNSPECIFIED" := by
  refine ⟨?_, ?_, ?_⟩
  · decide
  · decide
  · decide

/-- C3 (amended): for every enum emitted by `Convert`, the first value has
number 0 and no other value has number 0; the remaining values are numbered
`1..N` in source order; the first value's name is the enum's final name in
SCREAMING_SNAKE_CASE followed by `_UNSPECIFIED`, except that a numeric
suffix is appended when that name was already taken by an earlier enum
value. -/
theorem C3_enum_sentinel_amended :
    ∀ (cc pc : Bool) (schema : Schema) (pf : ProtoFile) (sch : Schema) (c : Converter),
      (Converter.new.setFieldNamingStyle cc pc).convert schema = .ok (pf, sch, c) →
      ∀ e ∈ pf.enums, enumSentinelOk e := by
  intro cc pc schema pf sch c h
  obtain ⟨pf', sch', c', heq, _, _, _, hsent, _⟩ :=
    convert_full (Converter.new.setFieldNamingStyle cc pc) schema
  rw [h] at heq
  simp only [Except.ok.injEq, Prod.mk.injEq] at heq
  obtain ⟨hpf, _, _⟩ := heq
  rw [hpf]
  exact hsent

/-- Witness for the amended C3 at the enum-clash schema. -/
theorem C3_enum_sentinel_amended_witness :
    ∃ pf sch c, Converter.new.convert sEnumClash = .ok (pf, sch, c) ∧
      ∀ e ∈ pf.enums, enumSentinelOk e :=
  ⟨_, _, _, rfl, C3_enum_sentinel_amended false false sEnumClash _ _ _ rfl⟩

/-- C5 counterexample: `Convert` mutates the input schema tree: converting
the element `person`, whose inline complex type is anonymous, overwrites
that type's empty `Name` with `person`, so the schema after the call
differs from the input schema. -/
theorem C5_read_only_counterexample :
    (match Converter.new.convert sInlineUnnamed with
      | .ok (_, sch, _) => sch
      | .error _ => sInlineUnnamed) ≠ sInlineUnnamed := by
  decide

/-- C5 (amended): `Convert` leaves the target namespace, complex types and
simple types of the schema unchanged; the elements are unchanged except
that each element carrying an inline complex type has that type's `Name`
overwritten with the message name (the element's name when the inline name
was empty, the unchanged inline name otherwise — a value-level no-op). -/
theorem C5_frame_amended :
    (∀ (cc pc : Bool) (schema : Schema) (pf : ProtoFile) (sch : Schema) (c : Converter),
        (Converter.new.setFieldNamingStyle cc pc).convert schema = .ok (pf, sch, c) →
        sch.targetNamespace = schema.targetNamespace ∧
        sch.complexTypes = schema.complexTypes ∧
        sch.simpleTypes = schema.simpleTypes ∧
        sch.elements = schema.elements.map updateElement) ∧
    (∀ el : Element, el.complexType = none → updateElement el = el) ∧
    (∀ (el : Element) (ct : ComplexType), el.complexType = some ct → ct.name ≠ "" →
        updateElement el = el) := by
  refine ⟨?_, ?_, ?_⟩
  · intro cc pc schema pf sch c h
    obtain ⟨pf', sch', c', heq, hsch, _⟩ :=
      convert_full (Converter.new.setFieldNamingStyle cc pc) schema
    rw [h] at heq
    simp only [Except.ok.injEq, Prod.mk.injEq] at heq
    obtain ⟨_, hs, _⟩ := heq
    rw [hs, hsch]
    exact ⟨rfl, rfl, rfl, rfl⟩
  · intro el hct
    simp [updateElement, hct]
  · intro el ct hct hne
    simp only [updateElement, hct, if_pos hne]
    show ({ el with complexType := some ct } : Element) = el
    rw [← hct]

/-- Witness for the amended C5 at the anonymous-inline-type schema. -/
theorem C5_frame_amended_witness :
    ∃ pf sch c, Converter.new.convert sInlineUnnamed = .ok (pf, sch, c) ∧
      sch.targetNamespace = sInlineUnnamed.targetNamespace ∧
      sch.complexTypes = sInlineUnnamed.complexTypes ∧
      sch.simpleTypes = sInlineUnnamed.simpleTypes ∧
      sch.elements = sInlineUnnamed.elements.map updateElement :=
  ⟨_, _, _, rfl, C5_frame_amended.1 false false sInlineUnnamed _ _ _ rfl⟩

/-- C10 counterexample: in `sRenameOverwrite` the original name `Person` is
declared twice (emitted as `Person` and `Person2`, so the last-processed
declaration's final name is `Person2`), yet `Holder`, converted between the
two declarations, resolves its field of declared type `Person` to `Person`
— the rename entry current at conversion time — not to the final name of
the last-processed declaration. -/
theorem C10_rename_counterexample :
    (match Converter.new.convert sRenameOverwrite with
      | .ok (pf, _, _) => pf.messages.map (fun m => (m.name, m.fields.map (fun f => f.typeName)))
      | .error _ => []) =
      [("Person", []), ("Holder", ["Person"]), ("Person2", [])] ∧
    ("Person" : String) ≠ "Person2" := by
  refine ⟨?_, ?_⟩
  · decide
  · decide

/-- C10 (amended): the rename map entry for an original name is overwritten
by each successive declaration (the newest binding wins lookups), so a
field or attribute converted after the last-processed colliding declaration
resolves to that declaration's final emitted name; a field converted
earlier resolves to the rename entry current at its own conversion time. -/
theorem C10_rename_overwrite_amended :
    (∀ (c : Converter) (originalName : String),
        ((generateUniqueMessageName c originalName).2).typeRenameMap.lookup originalName =
          some (generateUniqueMessageName c originalName).1 ∧
        ((generateUniqueEnumName c originalName).2).typeRenameMap.lookup originalName =
          some (generateUniqueEnumName c originalName).1) ∧
    (∀ (c : Converter) (element : ChildElement) (nm : String),
        getArrayOfElementType c element.typeName = "" →
        c.typeMapper.isBuiltInType element.typeName = false →
        c.typeRenameMap.lookup (cleanTypeName element.typeName) = some nm →
        convertElementToField c element = .ok
          ({ name := formatFieldName c element.name
             typeName := nm
             number := c.fieldCounter
             label := determineFieldLabel element.minOccurs element.maxOccurs },
           { c with fieldCounter := c.fieldCounter + 1 })) ∧
    (∀ (c : Converter) (attr : Attribute) (nm : String),
        c.typeMapper.isBuiltInType attr.typeName = false →
        c.typeRenameMap.lookup (cleanTypeName attr.typeName) = some nm →
        convertAttributeToField c attr = .ok
          ({ name := formatFieldName c attr.name
             typeName := nm
             number := c.fieldCounter
             label := determineAttributeLabel attr.use },
           { c with fieldCounter := c.fieldCounter + 1 })) := by
  refine ⟨?_, ?_, ?_⟩
  · intro c originalName
    constructor
    · rw [genMsgName_state]
      simp [List.lookup]
    · rw [genEnumName_state]
      simp [List.lookup]
  · intro c element nm harr hb hlk
    exact convertElementToField_renamed c element nm harr hb hlk
  · intro c attr nm hb hlk
    exact convertAttributeToField_renamed c attr nm hb hlk

/-- A child element of declared type `Person`, for the C10 witness. -/
def cPersonRef : ChildElement :=
  { name := "p", typeName := "Person", minOccurs := "", maxOccurs := "" }

/-- Witness for the amended C10: with the rename map currently binding
`Person` to `Person2`, a field of declared type `Person` resolves to
`Person2`. -/
theorem C10_rename_overwrite_amended_witness :
    convertElementToField
        { Converter.new with typeRenameMap := [("Person", "Person2")] } cPersonRef = .ok
      ({ name := formatFieldName { Converter.new with typeRenameMap := [("Person", "Person2")] }
                   cPersonRef.name
         typeName := "Person2"
         number := ({ Converter.new with typeRenameMap := [("Person", "Person2")] }).fieldCounter
         label := determineFieldLabel cPersonRef.minOccurs cPersonRef.maxOccurs },
       { { Converter.new with typeRenameMap := [("Person", "Person2")] } with
           fieldCounter :=
             ({ Converter.new with typeRenameMap := [("Person", "Person2")] }).fieldCounter + 1 }) :=
  C10_rename_overwrite_amended.2.1
    { Converter.new with typeRenameMap := [("Person", "Person2")] } cPersonRef "Person2"
    (by decide) (by decide) (by decide)

/-- A plain child element with unspecified bounds, for the C6 witness. -/
def cPlainElem : ChildElement :=
  { name := "firstName", typeName := "string", minOccurs := "", maxOccurs := "" }

/-- A plain attribute, for the C6 witness. -/
def aPlainAttr : Attribute :=
  { name := "id", typeName := "string", use := "required" }

/-- The message `convertComplexType` produces for `ctHolder` from a fresh
converter (used to witness the choice-label rule). -/
def msgHolder : ProtoMessage :=
  match convertComplexType { Converter.new with currentSchema := some sArrayPattern } ctHolder with
  | .ok (m, _) => m
  | .error _ => { name := "", fields := [] }

/-- C6: the label policy. A repeated label exactly when `maxOccurs` is
`unbounded` or a non-empty value other than `1`; otherwise optional exactly
when `minOccurs` is `0`; otherwise (including unspecified bounds) required.
Fields from choice elements are forced to optional, and attribute fields
are required exactly when `use = "required"`. -/
theorem C6_field_labels :
    (∀ minOccurs maxOccurs : String,
        (maxOccurs = "unbounded" ∨ (maxOccurs ≠ "" ∧ maxOccurs ≠ "1") →
          determineFieldLabel minOccurs maxOccurs = .repeated) ∧
        (¬ (maxOccurs = "unbounded" ∨ (maxOccurs ≠ "" ∧ maxOccurs ≠ "1")) → minOccurs = "0" →
          determineFieldLabel minOccurs maxOccurs = .optional) ∧
        (¬ (maxOccurs = "unbounded" ∨ (maxOccurs ≠ "" ∧ maxOccurs ≠ "1")) → minOccurs ≠ "0" →
          determineFieldLabel minOccurs maxOccurs = .required)) ∧
    (∀ use : String,
        (use = "required" → determineAttributeLabel use = .required) ∧
        (use ≠ "required" → determineAttributeLabel use = .optional)) ∧
    (∀ (c : Converter) (element : ChildElement),
        getArrayOfElementType c element.typeName = "" →
        ∃ f c', convertElementToField c element = .ok (f, c') ∧
          f.label = determineFieldLabel element.minOccurs element.maxOccurs) ∧
    (∀ (c : Converter) (attr : Attribute),
        ∃ f c', convertAttributeToField c attr = .ok (f, c') ∧
          f.label = determineAttributeLabel attr.use) ∧
    (∀ (c : Converter) (ct : ComplexType) (msg : ProtoMessage) (c' : Converter),
        convertComplexType c ct = .ok (msg, c') →
        ∀ f ∈ (msg.fields.drop (seqElements ct).length).take (choiceElements ct).length,
          f.label = FieldLabel.optional) := by
  refine ⟨?_, ?_, ?_, ?_, ?_⟩
  · intro minOccurs maxOccurs
    refine ⟨?_, ?_, ?_⟩
    · intro h
      rw [determineFieldLabel, if_pos h]
    · intro h h0
      rw [determineFieldLabel, if_neg h, if_pos h0]
    · intro h h0
      rw [determineFieldLabel, if_neg h, if_neg h0]
  · intro use
    refine ⟨?_, ?_⟩
    · intro h
      rw [determineAttributeLabel, if_pos h]
    · intro h
      rw [determineAttributeLabel, if_neg h]
  · intro c element harr
    obtain ⟨f, heq, _, _, _, hlab⟩ := convertElementToField_spec c element
    exact ⟨f, _, heq, hlab harr⟩
  · intro c attr
    obtain ⟨f, heq, _, _, hlab⟩ := convertAttributeToField_spec c attr
    exact ⟨f, _, heq, hlab⟩
  · intro c ct msg c' heq f hf
    obtain ⟨msg', heq', _, _, _, _, _, fseq, fch, fat, hdec, hl1, hl2, _, hopt, _⟩ :=
      convertComplexType_full c ct
    rw [heq] at heq'
    simp only [Except.ok.injEq, Prod.mk.injEq] at heq'
    obtain ⟨hm, _⟩ := heq'
    rw [hm] at hf
    rw [hdec, List.append_assoc, ← hl1, List.drop_left, ← hl2, List.take_left] at hf
    exact hopt f hf

/-- Witness for C6 combining every clause at concrete inputs. -/
theorem C6_field_labels_witness :
    determineFieldLabel "" "unbounded" = .repeated ∧
    determineFieldLabel "0" "" = .optional ∧
    determineFieldLabel "" "" = .required ∧
    determineAttributeLabel "required" = .required ∧
    determineAttributeLabel "optional" = .optional ∧
    (∃ f c', convertElementToField Converter.new cPlainElem = .ok (f, c') ∧
      f.label = determineFieldLabel cPlainElem.minOccurs cPlainElem.maxOccurs) ∧
    (∃ f c', convertAttributeToField Converter.new aPlainAttr = .ok (f, c') ∧
      f.label = determineAttributeLabel aPlainAttr.use) ∧
    (∀ f ∈ (msgHolder.fields.drop (seqElements ctHolder).length).take
        (choiceElements ctHolder).length, f.label = FieldLabel.optional) :=
  ⟨(C6_field_labels.1 "" "unbounded").1 (by decide),
   (C6_field_labels.1 "0" "").2.1 (by decide) rfl,
   (C6_field_labels.1 "" "").2.2 (by decide) (by decide),
   (C6_field_labels.2.1 "required").1 rfl,
   (C6_field_labels.2.1 "optional").2 (by decide),
   C6_field_labels.2.2.1 Converter.new cPlainElem (by decide),
   C6_field_labels.2.2.2.1 Converter.new aPlainAttr,
   C6_field_labels.2.2.2.2 { Converter.new with currentSchema := some sArrayPattern } ctHolder
     msgHolder _ rfl⟩

set_option maxHeartbeats 1600000 in
/-- C7: mapping a type name through `MapXSDType` is invariant under
namespace prefixes (any `p ++ ":" ++ t` maps as `t` does, for colon-free
`t`); under the default mapper the fixed table holds (`long` and
`unsignedInt` map to `int64`, `unsignedLong` to `uint64`, the date/time
kinds to `google.protobuf.Timestamp`, and so on); and every non-built-in
name maps to its prefix-stripped form unchanged. -/
theorem C7_type_mapping :
    (∀ (tm : TypeMapper) (p t : String), ':' ∉ t.data →
        tm.mapXSDType (p ++ ":" ++ t) = tm.mapXSDType t) ∧
    (newTypeMapper.mapXSDType "string" = .ok "string" ∧
      newTypeMapper.mapXSDType "normalizedString" = .ok "string" ∧
      newTypeMapper.mapXSDType "token" = .ok "string" ∧
      newTypeMapper.mapXSDType "NMTOKEN" = .ok "string" ∧
      newTypeMapper.mapXSDType "Name" = .ok "string" ∧
      newTypeMapper.mapXSDType "NCName" = .ok "string" ∧
      newTypeMapper.mapXSDType "ID" = .ok "string" ∧
      newTypeMapper.mapXSDType "IDREF" = .ok "string" ∧
      newTypeMapper.mapXSDType "boolean" = .ok "bool" ∧
      newTypeMapper.mapXSDType "int" = .ok "int32" ∧
      newTypeMapper.mapXSDType "integer" = .ok "int32" ∧
      newTypeMapper.mapXSDType "short" = .ok "int32" ∧
      newTypeMapper.mapXSDType "byte" = .ok "int32" ∧
      newTypeMapper.mapXSDType "unsignedByte" = .ok "int32" ∧
      newTypeMapper.mapXSDType "long" = .ok "int64" ∧
      newTypeMapper.mapXSDType "unsignedInt" = .ok "int64" ∧
      newTypeMapper.mapXSDType "unsignedLong" = .ok "uint64" ∧
      newTypeMapper.mapXSDType "unsignedShort" = .ok "uint32" ∧
      newTypeMapper.mapXSDType "float" = .ok "float" ∧
      newTypeMapper.mapXSDType "double" = .ok "double" ∧
      newTypeMapper.mapXSDType "decimal" = .ok "double" ∧
      newTypeMapper.mapXSDType "dateTime" = .ok "google.protobuf.Timestamp" ∧
      newTypeMapper.mapXSDType "date" = .ok "google.protobuf.Timestamp" ∧
      newTypeMapper.mapXSDType "time" = .ok "google.protobuf.Timestamp" ∧
      newTypeMapper.mapXSDType "duration" = .ok "google.protobuf.Duration" ∧
      newTypeMapper.mapXSDType "anyURI" = .ok "string" ∧
      newTypeMapper.mapXSDType "base64Binary" = .ok "bytes" ∧
      newTypeMapper.mapXSDType "hexBinary" = .ok "bytes") ∧
    (∀ s : String, newTypeMapper.isBuiltInType s = false →
        newTypeMapper.mapXSDType s = .ok (cleanTypeName s)) := by
  refine ⟨?_, ?_, ?_⟩
  · intro tm p t ht
    unfold TypeMapper.mapXSDType
    rw [cleanTypeName_strip p t ht, cleanTypeName_no_colon t ht]
  · exact ⟨rfl, rfl, rfl, rfl, rfl, rfl, rfl, rfl, rfl, rfl, rfl, rfl, rfl, rfl, rfl, rfl,
      rfl, rfl, rfl, rfl, rfl, rfl, rfl, rfl, rfl, rfl, rfl, rfl⟩
  · intro s h
    have hmem : cleanTypeName s ∉ builtInTypeNames := by
      simpa [TypeMapper.isBuiltInType] using h
    have hne : ∀ x : String, x ∈ builtInTypeNames → ¬ (cleanTypeName s = x) :=
      fun x hx hceq => hmem (by rw [hceq]; exact hx)
    simp only [TypeMapper.mapXSDType]
    split
    · next p heq => simp [newTypeMapper, List.lookup] at heq
    · have h1 : ¬ (cleanTypeName s = "string" ∨ cleanTypeName s = "normalizedString" ∨
          cleanTypeName s = "token" ∨ cleanTypeName s = "NMTOKEN" ∨ cleanTypeName s = "Name" ∨
          cleanTypeName s = "NCName" ∨ cleanTypeName s = "ID" ∨ cleanTypeName s = "IDREF") := by
        intro hc
        rcases hc with hc | hc | hc | hc | hc | hc | hc | hc <;> exact hne _ (by decide) hc
      have h2 : ¬ (cleanTypeName s = "boolean") := hne _ (by decide)
      have h3 : ¬ (cleanTypeName s = "int" ∨ cleanTypeName s = "integer" ∨
          cleanTypeName s = "short" ∨ cleanTypeName s = "byte" ∨
          cleanTypeName s = "unsignedByte") := by
        intro hc
        rcases hc with hc | hc | hc | hc | hc <;> exact hne _ (by decide) hc
      have h4 : ¬ (cleanTypeName s = "long" ∨ cleanTypeName s = "unsignedInt") := by
        intro hc
        rcases hc with hc | hc <;> exact hne _ (by decide) hc
      have h5 : ¬ (cleanTypeName s = "float") := hne _ (by decide)
      have h6 : ¬ (cleanTypeName s = "double" ∨ cleanTypeName s = "decimal") := by
        intro hc
        rcases hc with hc | hc <;> exact hne _ (by decide) hc
      have h7 : ¬ (cleanTypeName s = "dateTime" ∨ cleanTypeName s = "date" ∨
          cleanTypeName s = "time") := by
        intro hc
        rcases hc with hc | hc | hc <;> exact hne _ (by decide) hc
      have h8 : ¬ (cleanTypeName s = "duration") := hne _ (by decide)
      have h9 : ¬ (cleanTypeName s = "anyURI") := hne _ (by decide)
      have h10 : ¬ (cleanTypeName s = "base64Binary" ∨ cleanTypeName s = "hexBinary") := by
        intro hc
        rcases hc with hc | hc <;> exact hne _ (by decide) hc
      have h11 : ¬ (cleanTypeName s = "unsignedLong") := hne _ (by decide)
      have h12 : ¬ (cleanTypeName s = "unsignedShort") := hne _ (by decide)
      rw [if_neg h1, if_neg h2, if_neg h3, if_neg h4, if_neg h5, if_neg h6, if_neg h7,
        if_neg h8, if_neg h9, if_neg h10, if_neg h11, if_neg h12]

/-- Witness for C7: prefix invariance at `ns:long` and passthrough of a
custom type name. -/
theorem C7_type_mapping_witness :
    TypeMapper.mapXSDType newTypeMapper ("ns" ++ ":" ++ "long") =
        TypeMapper.mapXSDType newTypeMapper "long" ∧
    newTypeMapper.mapXSDType "ns:MyType" = .ok (cleanTypeName "ns:MyType") :=
  ⟨C7_type_mapping.1 newTypeMapper "ns" "long" (by decide),
   C7_type_mapping.2.2 "ns:MyType" (by decide)⟩

/-- C8 counterexample: the `urn:` branch returns the last colon-separated
segment even when it is empty — `urn:example:` yields `""`, not the last
non-empty segment `example`. -/
theorem C8_package_name_counterexample :
    generatePackageName "urn:example:" = "" ∧
    generatePackageName "urn:example:" ≠ "example" := by
  refine ⟨?_, ?_⟩
  · decide
  · decide

/-- C8 (amended): an empty namespace yields `generated`; a `urn:` namespace
yields the last colon-separated segment, which may be empty; an `http://`
or `https://` namespace whose scheme-stripped remainder splits on `/` into
exactly two segments yields the second segment, and with more than one
segment and a non-empty last segment yields that last segment. -/
theorem C8_package_name_amended :
    generatePackageName "" = "generated" ∧
    (∀ s : String, hasPrefixStr s "urn:" = true →
        generatePackageName s = (splitCharStr ':' s).getLastD "") ∧
    (∀ rest : String, hasPrefixStr rest "https://" = false →
        ((splitCharStr '/' rest).length = 2 →
          generatePackageName ("http://" ++ rest) = (splitCharStr '/' rest).getD 1 "") ∧
        ((splitCharStr '/' rest).length ≠ 2 → (splitCharStr '/' rest).length > 1 →
          (splitCharStr '/' rest).getLastD "" ≠ "" →
          generatePackageName ("http://" ++ rest) = (splitCharStr '/' rest).getLastD "")) ∧
    (∀ rest : String,
        ((splitCharStr '/' rest).length = 2 →
          generatePackageName ("https://" ++ rest) = (splitCharStr '/' rest).getD 1 "") ∧
        ((splitCharStr '/' rest).length ≠ 2 → (splitCharStr '/' rest).length > 1 →
          (splitCharStr '/' rest).getLastD "" ≠ "" →
          generatePackageName ("https://" ++ rest) = (splitCharStr '/' rest).getLastD "")) := by
  refine ⟨rfl, ?_, ?_, ?_⟩
  · intro s hurn
    obtain ⟨hh1, hh2, hdot, hne⟩ := urn_not_other s hurn
    have hparts : splitCharStr ':' s ≠ [] := by
      unfold splitCharStr
      intro hx
      exact splitCharList_ne_nil ':' s.data (List.map_eq_nil_iff.mp hx)
    simp only [generatePackageName]
    rw [if_neg hne, if_neg (by simp [hh1, hh2]), if_neg (by simp [hdot]), if_pos hurn,
      if_pos (List.length_pos.mpr hparts)]
  · intro rest h2
    have hne : ("http://" ++ rest) ≠ "" := by
      intro he
      have : ("http://" ++ rest).data = [] := by rw [he]
      simp at this
    have hpre : hasPrefixStr ("http://" ++ rest) "http://" = true := hasPrefixStr_append _ _
    have hpath : trimPrefixStr (trimPrefixStr ("http://" ++ rest) "http://") "https://" = rest := by
      rw [trimPrefixStr_append]
      unfold trimPrefixStr
      rw [if_neg (by simp [h2])]
    constructor
    · intro hlen
      simp only [generatePackageName]
      rw [if_neg hne, if_pos (Or.inl hpre), hpath, if_pos hlen]
    · intro hlen2 hgt hlast
      simp only [generatePackageName]
      rw [if_neg hne, if_pos (Or.inl hpre), hpath, if_neg hlen2, if_pos ⟨hgt, hlast⟩]
  · intro rest
    have hne : ("https://" ++ rest) ≠ "" := by
      intro he
      have : ("https://" ++ rest).data = [] := by rw [he]
      simp at this
    have hnotHttp : hasPrefixStr ("https://" ++ rest) "http://" = false := rfl
    have hpre : hasPrefixStr ("https://" ++ rest) "https://" = true := hasPrefixStr_append _ _
    have hpath : trimPrefixStr (trimPrefixStr ("https://" ++ rest) "http://") "https://" = rest := by
      have h1 : trimPrefixStr ("https://" ++ rest) "http://" = "https://" ++ rest := by
        unfold trimPrefixStr
        rw [if_neg (by simp [hnotHttp])]
      rw [h1, trimPrefixStr_append]
    constructor
    · intro hlen
      simp only [generatePackageName]
      rw [if_neg hne, if_pos (Or.inr hpre), hpath, if_pos hlen]
    · intro hlen2 hgt hlast
      simp only [generatePackageName]
      rw [if_neg hne, if_pos (Or.inr hpre), hpath, if_neg hlen2, if_pos ⟨hgt, hlast⟩]

/-- Witness for the amended C8 at concrete namespaces. -/
theorem C8_package_name_amended_witness :
    generatePackageName "urn:com:example:retail" = "retail" ∧
    generatePackageName ("http://" ++ "example.com/simple") = "simple" ∧
    generatePackageName ("https://" ++ "example.com/a/b") = "b" := by
  refine ⟨?_, ?_, ?_⟩
  · exact (C8_package_name_amended.2.1 "urn:com:example:retail" (by decide)).trans (by decide)
  · exact ((C8_package_name_amended.2.2.1 "example.com/simple" (by decide)).1
      (by decide)).trans (by decide)
  · exact ((C8_package_name_amended.2.2.2 "example.com/a/b").2
      (by decide) (by decide) (by decide)).trans (by decide)

/-- C4 counterexample: in `sArrayPattern` the element `e1` carries an
inline complex type `ArrayOfBaz` that matches the array-wrapper pattern,
yet it is emitted as a message (only top-level complex types are filtered);
moreover `Holder`'s choice field referencing the wrapper gets the inner
type but label `optional` (not `repeated`), and its attribute field keeps
the raw `ArrayOfFoo` type and is not rewritten at all. -/
theorem C4_array_collapsing_counterexample :
    isArrayOfPattern ctInlineArray = true ∧
    (match Converter.new.convert sArrayPattern with
      | .ok (pf, _, _) =>
        pf.messages.map (fun m => (m.name, m.fields.map (fun f => (f.typeName, f.label))))
      | .error _ => []) =
      [("Holder", [("Foo", FieldLabel.repeated), ("Foo", FieldLabel.optional),
                   ("ArrayOfFoo", FieldLabel.required)]),
       ("ArrayOfBaz", [("string", FieldLabel.repeated)])] := by
  refine ⟨?_, ?_⟩
  · decide
  · decide

/-- C4 (amended): a top-level complex type matching the array-wrapper
pattern is skipped by the second pass (it never yields a message there:
converting the type list equals converting the list with the pattern types
filtered out); a sequence or choice element whose declared type resolves
to such a wrapper is converted to a field of the wrapper's inner element
type, with label `repeated` for sequence elements (choice elements have the
label overwritten to `optional` afterwards, and attributes are not
rewritten); the spec scenario yields `repeated Foo` in `Holder` with no
`ArrayOfFoo` message. -/
theorem C4_array_collapsing_amended :
    (∀ (c : Converter) (cts : List ComplexType),
        convertComplexTypes c cts =
          convertComplexTypes c (cts.filter (fun ct => ! isArrayOfPattern ct))) ∧
    (∀ (c : Converter) (element : ChildElement),
        getArrayOfElementType c element.typeName ≠ "" →
        convertElementToField c element = .ok
          ({ name := formatFieldName c element.name
             typeName := getArrayOfElementType c element.typeName
             number := c.fieldCounter
             label := FieldLabel.repeated },
           { c with fieldCounter := c.fieldCounter + 1 })) ∧
    (match Converter.new.convert sArrayOnly with
      | .ok (pf, _, _) =>
        pf.messages.map (fun m => (m.name, m.fields.map (fun f => (f.typeName, f.label))))
      | .error _ => []) = [("Holder", [("Foo", FieldLabel.repeated)])] := by
  refine ⟨?_, ?_, ?_⟩
  · intro c cts
    induction cts generalizing c with
    | nil => rfl
    | cons ct rest ih =>
      by_cases h : isArrayOfPattern ct
      · simp only [convertComplexTypes, if_pos h, List.filter_cons, h, Bool.not_true]
        exact ih c
      · simp only [convertComplexTypes, if_neg h, List.filter_cons, h, Bool.not_false]
        rcases hcc : convertComplexType c ct with e | ⟨m, c1⟩
        · simp only [convertComplexTypes, if_neg h, hcc, Bool.false_eq_true, if_false]
        · simp only [convertComplexTypes, if_neg h, hcc, Bool.false_eq_true, if_false]
          rw [ih c1]
  · intro c element harr
    obtain ⟨v, hv⟩ := mapXSDType_isOk c.typeMapper element.typeName
    simp only [convertElementToField, hv]
    rw [if_pos harr]
  · decide

/-- A child element of declared type `ArrayOfFoo`, for the C4 witness. -/
def cFoosElem : ChildElement :=
  { name := "foos", typeName := "ArrayOfFoo", minOccurs := "", maxOccurs := "" }

/-- Witness for the amended C4: with `sArrayOnly` as current schema, a
sequence element declared `ArrayOfFoo` becomes a repeated field of the
wrapper's inner element type. -/
theorem C4_array_collapsing_amended_witness :
    convertElementToField { Converter.new with currentSchema := some sArrayOnly } cFoosElem = .ok
      ({ name := formatFieldName { Converter.new with currentSchema := some sArrayOnly }
                   cFoosElem.name
         typeName := getArrayOfElementType { Converter.new with currentSchema := some sArrayOnly }
                       cFoosElem.typeName
         number := ({ Converter.new with currentSchema := some sArrayOnly } : Converter).fieldCounter
         label := FieldLabel.repeated },
       { { Converter.new with currentSchema := some sArrayOnly } with
           fieldCounter :=
             ({ Converter.new with currentSchema := some sArrayOnly } : Converter).fieldCounter + 1 }) :=
  C4_array_collapsing_amended.2.1 { Converter.new with currentSchema := some sArrayOnly }
    cFoosElem (by decide)
